import Mathlib

/-!
# ssssort benchmark harness: embedding and verified properties

Shallow embedding of the benchmark harness of the `ssssort` repository
(`progress_bar.h`, `sort.cpp`, `strings.cpp`).

Conventions of the embedding.

* `size_t` and `unsigned long long` are naturals taken modulo `2^64`; `int` is an integer in
  `[-2^31, 2^31)`; a conversion to `int` wraps modulo `2^32` (`to_int`).
* Undefined behaviour (integer division by zero, signed overflow) stops the execution: the
  operations of the progress bar return `none`, and `run` returns `Except.error` with the
  state reached when the execution stopped.
* A `T*` buffer of `size` elements is a vector of length `size`.
* A `std::ostream` is the identity of its stream buffer together with the characters written
  to it so far.
-/

namespace Ssssort

/-! ## Machine integers -/

/-- Number of values of `size_t` / `unsigned long long`. -/
def U64 : Nat := 2 ^ 64

/-- Conversion of an integer value to `int`: the value modulo `2^32`, in `[-2^31, 2^31)`. -/
def to_int (x : Int) : Int := (x + 2 ^ 31) % 2 ^ 32 - 2 ^ 31

/-- Whether an integer is representable as `int`. -/
def in_int_range (x : Int) : Bool := decide (-(2 ^ 31) ≤ x) && decide (x < 2 ^ 31)

/-! ## Output streams -/

/-- Text as a sequence of characters. -/
abbrev Text := List Char

/-- The carriage return character. -/
def CR : Char := Char.ofNat 13

/-- The newline character. -/
def LF : Char := Char.ofNat 10

/-- Identity of a stream buffer (`rdbuf()`): that of `std::cout`, that of `std::cerr`, or any
other one. -/
inductive StreamBuf where
  | cout : StreamBuf
  | cerr : StreamBuf
  | other : Nat → StreamBuf
deriving DecidableEq, Repr

/-- An output stream: its stream buffer and the characters written to it so far. -/
structure OStream where
  rdbuf : StreamBuf
  written : Text
deriving DecidableEq, Repr

/-- An output stream on which nothing has been written yet. -/
def OStream.fresh (rb : StreamBuf) : OStream := { rdbuf := rb, written := [] }

/-- The stream `std::cout` after the characters `console` have been written to it. -/
def std_cout (console : Text) : OStream := { rdbuf := StreamBuf.cout, written := console }

/-- Writing text with `operator<<`. -/
def OStream.write (o : OStream) (t : Text) : OStream := { o with written := o.written ++ t }

/-- The call `out.flush()`: it writes no character. -/
def OStream.flush (o : OStream) : OStream := o

/-- Decimal text of an `int`, as `operator<<` prints it. -/
def int_text (p : Int) : Text :=
  if p < 0 then '-' :: Nat.toDigits 10 p.natAbs else Nat.toDigits 10 p.toNat

/-! ## progress_bar.h -/

/-- The fields of `class progress_bar`. -/
structure progress_bar where
  out : OStream
  extra : Text
  max : Nat
  pos : Nat
  lastprogress : Int
  barwidth : Int
  do_draw : Bool
deriving DecidableEq, Repr

namespace progress_bar

/-- The constructor `progress_bar(max, extra, out, barwidth)`. -/
def new (max : Nat) (extra : Text) (out : OStream) (barwidth : Int) : progress_bar :=
  { out := out
    extra := extra
    max := max % U64
    pos := 0
    lastprogress := -1
    barwidth := barwidth
    do_draw := decide (out.rdbuf = StreamBuf.cout) || decide (out.rdbuf = StreamBuf.cerr) }

/-- The glyph written at column `i` of the bar when the fill point is `fill`. -/
def glyph (fill : Int) (i : Nat) : Char :=
  if (i : Int) < fill then '=' else if (i : Int) = fill then '>' else ' '

/-- The characters written by the `for` loop of `draw`. -/
def bar_text (barwidth fill : Int) : Text :=
  (List.range barwidth.toNat).map (glyph fill)

/-- The method `draw()`. It returns `none` when the division by `max` divides by zero or when
`barwidth * progress` overflows `int`. -/
def draw (b : progress_bar) : Option progress_bar :=
  if !b.do_draw then some b
  else if b.max = 0 then none
  else
    let progress : Int := to_int ((((b.pos * 100) % U64) / b.max : Nat) : Int)
    if progress = b.lastprogress then some b
    else if !in_int_range (b.barwidth * progress) then none
    else
      let pos : Int := Int.tdiv (b.barwidth * progress) 100
      let o1 := b.out.write (b.extra ++ ['['])
      let o2 := o1.write (bar_text b.barwidth pos)
      let o3 := o2.write (']' :: ' ' :: int_text progress ++ [' ', '%', CR])
      some { b with out := o3.flush, lastprogress := progress }

/-- The method `step()`. -/
def step (b : progress_bar) : Option progress_bar :=
  draw { b with pos := (b.pos + 1) % U64 }

/-- The method `stepto(newpos)`. -/
def stepto (b : progress_bar) (newpos : Nat) : Option progress_bar :=
  draw { b with pos := newpos % U64 }

/-- The method `operator++()`. -/
def operator_inc (b : progress_bar) : Option progress_bar :=
  step b

/-- The method `undraw()`. It returns `none` when the computation of `width` overflows
`int`. -/
def undraw (b : progress_bar) : Option progress_bar :=
  let len : Int := to_int (b.extra.length : Int)
  if !in_int_range (b.barwidth + 8) || !in_int_range (b.barwidth + 8 + len) then none
  else
    let width : Int := b.barwidth + 8 + len
    some { b with out := b.out.write (CR :: List.replicate width.toNat ' ' ++ [CR]) }

/-- The method `set_extra(new_extra)`. -/
def set_extra (b : progress_bar) (new_extra : Text) : Option progress_bar :=
  match undraw b with
  | none => none
  | some b1 => draw { b1 with extra := new_extra }

end progress_bar

/-- The public operations of a progress bar. -/
inductive BarOp where
  | step : BarOp
  | stepto : Nat → BarOp
  | operator_inc : BarOp
  | undraw : BarOp
  | set_extra : Text → BarOp
deriving DecidableEq, Repr

/-- Whether the operation is one of `step` and `stepto`. -/
def BarOp.is_advance : BarOp → Bool
  | BarOp.step => true
  | BarOp.stepto _ => true
  | _ => false

/-- One operation applied to a bar. -/
def BarOp.apply (b : progress_bar) : BarOp → Option progress_bar
  | BarOp.step => b.step
  | BarOp.stepto p => b.stepto p
  | BarOp.operator_inc => b.operator_inc
  | BarOp.undraw => b.undraw
  | BarOp.set_extra t => b.set_extra t

/-- A sequence of operations applied to a bar, first to last. -/
def BarOp.apply_all (b : progress_bar) : List BarOp → Option progress_bar
  | [] => some b
  | op :: ops =>
    match op.apply b with
    | none => none
    | some b1 => BarOp.apply_all b1 ops

/-! ## progress_bar.h: what is written -/

namespace progress_bar

/-- The percentage that `draw()` computes, `static_cast<int>((pos * 100) / max)`, for a
maximum that is not 0. -/
def percent (b : progress_bar) : Int :=
  to_int ((((b.pos * 100) % U64) / b.max : Nat) : Int)

/-- The characters of one render before the final carriage return: the label, the bracket,
the bar, the bracket and a blank, the percentage, a blank and the percent sign. -/
def visible_text (extra : Text) (barwidth progress : Int) : Text :=
  extra ++ ['['] ++ bar_text barwidth (Int.tdiv (barwidth * progress) 100) ++
    (']' :: ' ' :: int_text progress ++ [' ', '%'])

/-- The characters of one render at the percentage `progress`. -/
def render_text (extra : Text) (barwidth progress : Int) : Text :=
  visible_text extra barwidth progress ++ [CR]

/-- The characters that `undraw()` writes when `width` is computed without overflow. -/
def undraw_text (extra : Text) (barwidth : Int) : Text :=
  CR :: List.replicate (barwidth + 8 + to_int (extra.length : Int)).toNat ' ' ++ [CR]

/-- The percentage that the call `draw()` renders in state `b`, when that call writes to
the destination. -/
def draw_rendered (b : progress_bar) : Option Int :=
  match b.draw with
  | none => none
  | some b1 => if b1.out.written = b.out.written then none else some b1.lastprogress

end progress_bar

/-- Whether the operation starts with a call of `undraw()`. -/
def BarOp.calls_undraw : BarOp → Bool
  | BarOp.undraw => true
  | BarOp.set_extra _ => true
  | _ => false

/-- The percentage that an operation renders, when its call of `draw()` writes to the
destination. -/
def BarOp.rendered (b : progress_bar) : BarOp → Option Int
  | BarOp.step => progress_bar.draw_rendered { b with pos := (b.pos + 1) % U64 }
  | BarOp.stepto p => progress_bar.draw_rendered { b with pos := p % U64 }
  | BarOp.operator_inc => progress_bar.draw_rendered { b with pos := (b.pos + 1) % U64 }
  | BarOp.undraw => none
  | BarOp.set_extra t =>
    match b.undraw with
    | none => none
    | some b1 => progress_bar.draw_rendered { b1 with extra := t }

/-- The percentages of the renders written while a sequence of operations is applied, in
the order of the renders. -/
def BarOp.render_log (b : progress_bar) : List BarOp → List Int
  | [] => []
  | op :: ops =>
    (op.rendered b).toList ++
      (match op.apply b with
       | none => []
       | some b1 => BarOp.render_log b1 ops)

/-- A bar for the examples: maximum 10, label `a`, on `std::cout`, with the default width. -/
def sample_bar : progress_bar := progress_bar.new 10 ['a'] (std_cout []) 70

/-! ## sort.cpp and strings.cpp: the command line -/

/-- The conversion of an `int` or `long` value to `size_t`. -/
def to_size_t (x : Int) : Nat := (x % (U64 : Int)).toNat

/-- The iteration count that `main` of `sort.cpp` passes to the benchmarks; `atoi` is the
library function and `argv` the argument vector, the program name first. -/
def sort_main_iterations (atoi : String → Int) (argv : List String) : Nat :=
  if 1 < argv.length then to_size_t (atoi (argv.getD 1 "")) else 10

/-- The settings that `main` of `strings.cpp` takes from the command line. -/
structure StringsArgs where
  outer_its : Nat
  inner_its : Nat
  input_file : String
  stat_file : String
deriving DecidableEq, Repr

/-- The argument handling of `main` of `strings.cpp`; `atol` is the library function and
`argv` the argument vector, the program name first. -/
def strings_main_args (atol : String → Int) (argv : List String) : StringsArgs :=
  { outer_its := if 1 < argv.length then to_size_t (atol (argv.getD 1 "")) else 5
    inner_its := if 2 < argv.length then to_size_t (atol (argv.getD 2 "")) else 3
    input_file := if 3 < argv.length then argv.getD 3 "" else "input.txt"
    stat_file := if 3 < argv.length then argv.getD 3 "" else "stats_strings.txt" }

/-- The file that `main` of `strings.cpp` opens for writing as the stats stream, if any. -/
def strings_stat_stream (a : StringsArgs) : Option String :=
  if a.stat_file = "-" then none else some a.stat_file

/-! ## sort.cpp: buffers, sorters, the timed runner -/

/-- A buffer of `n` elements (`T*` to an array of `n` elements). -/
abbrev Buf (α : Type) (n : Nat) := Mathlib.Vector α n

/-- The buffer that `memset(out, 0, size * sizeof(T))` leaves. -/
def zeroed (n : Nat) : Buf Int n := Mathlib.Vector.replicate n 0

/-- A sorter, the callable `sorter(data, out, size)`: from its hidden state (for instance a
random number generator) and the contents of the two buffers to the new hidden state and the
new contents of `data` and `out`. -/
abbrev Sorter (σ : Type) (n : Nat) := σ → Buf Int n → Buf Int n → σ × Buf Int n × Buf Int n

/-- What `run` does, in the order it does it. A sorter call records the loop iteration it
belongs to (`none` for the warm-up) and the contents of `data` and `out` when the sorter is
invoked and when it returns. A bar event is recorded when the statement is reached, also when
the execution stops inside it. -/
inductive Event (n : Nat) (τ : Type) where
  | sorter_call : Option Nat → Buf Int n → Buf Int n → Buf Int n → Buf Int n → Event n τ
  | memcpy_data : Event n τ
  | memset_out : Event n τ
  | timer_reset : Event n τ
  | timer_get : τ → Event n τ
  | bar_inc : Event n τ
  | bar_undraw : Event n τ

/-- The memory and local variables of `run`, with the trace of what it has done. -/
structure RunState (σ τ : Type) (n : Nat) where
  data : Buf Int n
  copy : Buf Int n
  out : Buf Int n
  sorter_state : σ
  bar : progress_bar
  time : τ
  trace : List (Event n τ)

/-- The statement `sorter(data, out, size)`. -/
def call_sorter {σ τ : Type} {n : Nat} (sorter : Sorter σ n) (it : Option Nat)
    (s : RunState σ τ n) : RunState σ τ n :=
  let r := sorter s.sorter_state s.data s.out
  { s with
    sorter_state := r.1
    data := r.2.1
    out := r.2.2
    trace := s.trace ++ [Event.sorter_call it s.data s.out r.2.1 r.2.2] }

/-- The statement `++bar`. -/
def inc_bar {σ τ : Type} {n : Nat} (s : RunState σ τ n) :
    Except (RunState σ τ n) (RunState σ τ n) :=
  let s1 := { s with trace := s.trace ++ [Event.bar_inc] }
  match s.bar.operator_inc with
  | none => Except.error s1
  | some b => Except.ok { s1 with bar := b }

/-- The statement `bar.undraw()`. -/
def undraw_bar {σ τ : Type} {n : Nat} (s : RunState σ τ n) :
    Except (RunState σ τ n) (RunState σ τ n) :=
  let s1 := { s with trace := s.trace ++ [Event.bar_undraw] }
  match s.bar.undraw with
  | none => Except.error s1
  | some b => Except.ok { s1 with bar := b }

/-- The body of the `for` loop of `run` at iteration `it`, up to `time += timer.get()`;
`timer it` is what `timer.get()` returns in that iteration. -/
def loop_work {σ τ : Type} [Add τ] {n : Nat} (sorter : Sorter σ n) (reset_out : Bool)
    (timer : Nat → τ) (it : Nat) (s : RunState σ τ n) : RunState σ τ n :=
  let s1 := { s with data := s.copy, trace := s.trace ++ [Event.memcpy_data] }
  let s2 := if reset_out then
      { s1 with out := zeroed n, trace := s1.trace ++ [Event.memset_out] }
    else s1
  let s3 := { s2 with trace := s2.trace ++ [Event.timer_reset] }
  let s4 := call_sorter sorter (some it) s3
  { s4 with time := s4.time + timer it, trace := s4.trace ++ [Event.timer_get (timer it)] }

/-- The body of the `for` loop of `run` at iteration `it`. -/
def run_body {σ τ : Type} [Add τ] {n : Nat} (sorter : Sorter σ n) (reset_out : Bool)
    (timer : Nat → τ) (it : Nat) (s : RunState σ τ n) :
    Except (RunState σ τ n) (RunState σ τ n) :=
  inc_bar (loop_work sorter reset_out timer it s)

/-- The `for` loop of `run` with `todo` iterations left, the next one being iteration `it`. -/
def run_loop {σ τ : Type} [Add τ] {n : Nat} (sorter : Sorter σ n) (reset_out : Bool)
    (timer : Nat → τ) : Nat → Nat → RunState σ τ n → Except (RunState σ τ n) (RunState σ τ n)
  | 0, _, s => Except.ok s
  | todo + 1, it, s =>
    match run_body sorter reset_out timer it s with
    | Except.error e => Except.error e
    | Except.ok s1 => run_loop sorter reset_out timer todo (it + 1) s1

/-- The state of `run` after the construction of the progress bar, on `std::cout` with the
default width 70. -/
def run_init {σ τ : Type} [Zero τ] {n : Nat} (data copy out : Buf Int n) (iterations : Nat)
    (algoname : Text) (st : σ) (console : Text) : RunState σ τ n :=
  { data := data
    copy := copy
    out := out
    sorter_state := st
    bar := progress_bar.new ((iterations + 1) % U64) algoname (std_cout console) 70
    time := 0
    trace := [] }

/-- The function `run(data, copy, out, size, sorter, iterations, algoname, reset_out)`.
`Except.ok s` is a return, with value `s.time`; `Except.error s` is an execution stopped in
state `s`. The environment is the hidden state of the sorter, the readings of the timer and
the characters already on `std::cout`, on which the bar is drawn. -/
def run {σ τ : Type} [Zero τ] [Add τ] {n : Nat} (data copy out : Buf Int n)
    (sorter : Sorter σ n) (iterations : Nat) (algoname : Text) (reset_out : Bool)
    (st : σ) (timer : Nat → τ) (console : Text) :
    Except (RunState σ τ n) (RunState σ τ n) :=
  let s1 := call_sorter sorter none (run_init data copy out iterations algoname st console)
  match inc_bar s1 with
  | Except.error e => Except.error e
  | Except.ok s2 =>
    match run_loop sorter reset_out timer iterations 0 s2 with
    | Except.error e => Except.error e
    | Except.ok s3 => undraw_bar s3

/-- The state in which an execution ended, returned or stopped. -/
def final_state {σ τ : Type} {n : Nat} :
    Except (RunState σ τ n) (RunState σ τ n) → RunState σ τ n
  | Except.ok s => s
  | Except.error s => s

/-- Whether the execution returned. -/
def returned {σ τ : Type} {n : Nat} : Except (RunState σ τ n) (RunState σ τ n) → Bool
  | Except.ok _ => true
  | Except.error _ => false

/-- The state in which the execution of `run` ends, returned or stopped. -/
def run_end {σ τ : Type} [Zero τ] [Add τ] {n : Nat} (data copy out : Buf Int n)
    (sorter : Sorter σ n) (iterations : Nat) (algoname : Text) (reset_out : Bool)
    (st : σ) (timer : Nat → τ) (console : Text) : RunState σ τ n :=
  final_state (run data copy out sorter iterations algoname reset_out st timer console)

/-- A sorter call of the trace: iteration, `data` and `out` at the invocation, `data` and
`out` at the return. -/
structure Call (n : Nat) where
  it : Option Nat
  data_in : Buf Int n
  out_in : Buf Int n
  data_after : Buf Int n
  out_after : Buf Int n
deriving DecidableEq

/-- The sorter calls of a trace, in order. -/
def calls {n : Nat} {τ : Type} : List (Event n τ) → List (Call n)
  | [] => []
  | Event.sorter_call it d o d1 o1 :: rest =>
    { it := it, data_in := d, out_in := o, data_after := d1, out_after := o1 } :: calls rest
  | _ :: rest => calls rest

/-- The measured sorter calls of a trace (those of the loop), in order. -/
def measured_calls {n : Nat} {τ : Type} (tr : List (Event n τ)) : List (Call n) :=
  (calls tr).filter (fun c => c.it.isSome)

/-- The kinds of events. -/
inductive EventKind where
  | sorter_call : EventKind
  | memcpy_data : EventKind
  | memset_out : EventKind
  | timer_reset : EventKind
  | timer_get : EventKind
  | bar_inc : EventKind
  | bar_undraw : EventKind
deriving DecidableEq, Repr

/-- The kind of an event. -/
def Event.kind {n : Nat} {τ : Type} : Event n τ → EventKind
  | Event.sorter_call _ _ _ _ _ => EventKind.sorter_call
  | Event.memcpy_data => EventKind.memcpy_data
  | Event.memset_out => EventKind.memset_out
  | Event.timer_reset => EventKind.timer_reset
  | Event.timer_get _ => EventKind.timer_get
  | Event.bar_inc => EventKind.bar_inc
  | Event.bar_undraw => EventKind.bar_undraw

/-- The timer readings of a trace, in order. -/
def readings {n : Nat} {τ : Type} : List (Event n τ) → List τ
  | [] => []
  | Event.timer_get t :: rest => t :: readings rest
  | _ :: rest => readings rest

/-- The protocol of one measured iteration as the spec words it: restore the working buffer,
zero the output buffer unless told not to, reset the timer, invoke the sorter, read the timer,
advance the progress indicator. -/
def iteration_protocol (reset_out : Bool) : List EventKind :=
  [EventKind.memcpy_data] ++ (if reset_out then [EventKind.memset_out] else []) ++
    [EventKind.timer_reset, EventKind.sorter_call, EventKind.timer_get, EventKind.bar_inc]

/-- The protocol of `run` as the spec words it: the warm-up call and one step of the progress
indicator, then the measured iterations, then the undraw. -/
def run_protocol (reset_out : Bool) (iterations : Nat) : List EventKind :=
  [EventKind.sorter_call, EventKind.bar_inc] ++
    (List.replicate iterations (iteration_protocol reset_out)).flatten ++
    [EventKind.bar_undraw]

/-! ## sort.cpp: verification and `benchmark` -/

/-- The library function `std::is_sorted` on the whole buffer: no element is less than its
predecessor. -/
def is_sorted : List Int → Bool
  | [] => true
  | [_] => true
  | a :: b :: rest => !decide (b < a) && is_sorted (b :: rest)

/-- The verification step of `benchmark`: the flag `incorrect` after the loop. -/
def verify_incorrect {n : Nat} (out data : Buf Int n) : Bool :=
  (List.finRange n).foldl (fun incorrect i => incorrect || (out.get i != data.get i))
    (!is_sorted out.toList)

/-- The library function `std::sort` on the whole buffer. Its result is the ascending
arrangement of its input, which is unique for `int`; insertion sort computes it. -/
def std_sort {n : Nat} (data : Buf Int n) : Buf Int n :=
  ⟨data.toList.insertionSort (fun a b => a ≤ b), by simp⟩

/-- The second lambda of `benchmark`: `std::sort(data, data + size)`, `out` ignored. -/
def stdsort_lambda {n : Nat} : Sorter Unit n :=
  fun st data out => (st, std_sort data, out)

/-- One `RESULT` line. -/
structure ResultRecord (τ : Type) where
  algo : String
  name : String
  size : Nat
  iterations : Nat
  time : τ
  t_generate : τ
  t_verify : τ
  correct : Bool
deriving DecidableEq, Repr

/-- The environment of one call of `benchmark`: the indeterminate contents of the three fresh
arrays, the candidate sorter `ssssort` (of `ssssort.h`) with its hidden state, the readings
of the timers and the characters already on `std::cout`. -/
structure BenchEnv (σ τ : Type) (n : Nat) where
  data0 : Buf Int n
  out0 : Buf Int n
  copy0 : Buf Int n
  ssssort : Sorter σ n
  ssssort_state : σ
  t_generate : τ
  t_verify : τ
  timer_ssssort : Nat → τ
  timer_stdsort : Nat → τ
  console : Text

/-- What `benchmark` leaves: the records written to `std::cout`, the records in the stats
stream (when there is one), whether the message of the sortedness check was written to
`std::cerr`, and the characters on `std::cout` after the two progress bars. -/
structure Report (τ : Type) where
  cout_records : List (ResultRecord τ)
  stat_records : Option (List (ResultRecord τ))
  cerr_not_sorted : Bool
  console : Text

/-- The first call of `run` in `benchmark`: the candidate, on the generated data. -/
def ssssort_run {σ τ : Type} [Zero τ] [Add τ] {n : Nat} (iterations : Nat)
    (generator : Buf Int n → Buf Int n) (env : BenchEnv σ τ n) :
    Except (RunState σ τ n) (RunState σ τ n) :=
  let data := generator env.data0
  run data data env.out0 env.ssssort iterations "ssssort: ".toList true
    env.ssssort_state env.timer_ssssort env.console

/-- The second call of `run` in `benchmark`: `std::sort`, on the buffers the first call left. -/
def stdsort_run {σ τ : Type} [Zero τ] [Add τ] {n : Nat} (iterations : Nat)
    (env : BenchEnv σ τ n) (s1 : RunState σ τ n) :
    Except (RunState Unit τ n) (RunState Unit τ n) :=
  run s1.data s1.copy s1.out stdsort_lambda iterations "std::sort: ".toList false
    () env.timer_stdsort s1.bar.out.written

/-- The function `benchmark(size, iterations, generator, name, stat_stream)`; `none` when the
execution stopped inside one of the two calls of `run`. -/
def benchmark {σ τ : Type} [Zero τ] [Add τ] [Div τ] [NatCast τ] (size iterations : Nat)
    (generator : Buf Int size → Buf Int size) (name : String)
    (stat_stream : Option (List (ResultRecord τ))) (env : BenchEnv σ τ size) :
    Option (Report τ) :=
  match ssssort_run iterations generator env with
  | Except.error _ => none
  | Except.ok s1 =>
    match stdsort_run iterations env s1 with
    | Except.error _ => none
    | Except.ok s2 =>
      let not_sorted := !is_sorted s2.out.toList
      let incorrect := verify_incorrect s2.out s2.data
      let result : List (ResultRecord τ) :=
        [ { algo := "ssssort", name := name, size := size, iterations := iterations
            time := s1.time / (iterations : τ), t_generate := env.t_generate
            t_verify := env.t_verify, correct := !incorrect },
          { algo := "stdsort", name := name, size := size, iterations := iterations
            time := s2.time / (iterations : τ), t_generate := env.t_generate
            t_verify := 0, correct := true } ]
      some
        { cout_records := result
          stat_records := stat_stream.map (fun old => old ++ result)
          cerr_not_sorted := not_sorted
          console := s2.bar.out.written }

/-- A correct candidate, for the examples: it writes the ascending arrangement of `data` to
`out` and leaves `data` as it is. -/
def sample_candidate {n : Nat} : Sorter Unit n :=
  fun st data _ => (st, data, std_sort data)

/-- An environment for the examples at size 8: arrays holding 5 everywhere, the candidate
`sample_candidate`, timers that always read 1. -/
def sample_env : BenchEnv Unit ℚ 8 :=
  { data0 := Mathlib.Vector.replicate 8 5
    out0 := Mathlib.Vector.replicate 8 5
    copy0 := Mathlib.Vector.replicate 8 5
    ssssort := sample_candidate
    ssssort_state := ()
    t_generate := 1
    t_verify := 1
    timer_ssssort := fun _ => 1
    timer_stdsort := fun _ => 1
    console := [] }

/-! ## sort.cpp and strings.cpp: the data generators -/

/-- The assignment `data[i] = v`. -/
def Buf.write {α : Type} {n : Nat} (data : Buf α n) (i : Nat) (v : α) : Buf α n :=
  ⟨data.toList.set i v, by simp⟩

/-- The loop `for (size_t i = lo; i < hi; ++i) body`. -/
def for_loop {S : Type} (lo hi : Nat) (body : Nat → S → S) (s : S) : S :=
  (List.range' lo (hi - lo)).foldl (fun acc i => body i acc) s

/-- The largest value of `std::mt19937`, `rng.max()`. -/
def rng_max : Nat := 2 ^ 32 - 1

/-- The conversion `static_cast<T>(x)` of an unsigned value to `T = int`. -/
def cast_T (x : Nat) : Int := to_int (x : Int)

/-- The product `i * factor` of a `size_t` and an `int`, stored in an `int`: the `int` is
converted to `size_t`, the product is taken modulo `2^64` and converted to `int`. -/
def mul_T (i : Nat) (factor : Int) : Int :=
  cast_T ((i * (factor % (U64 : Int)).toNat) % U64)

/-- The quotient `static_cast<T>(static_cast<double>(rng.max()) / d)`, or `none` where the
division or the conversion is undefined (`d = 0`, or a quotient that is no `int`). The
quotient of two integers below `2^53` is rounded to a `double` by less than its distance to
the next integer whenever it is not an integer itself, so the truncated `double` is the integer
quotient. -/
def factor_of (d : Nat) : Option Int :=
  if d = 0 then none
  else if 2 ^ 31 ≤ rng_max / d then none
  else some ((rng_max / d : Nat) : Int)

/-- The generator "random"; `rng k` is the `k`-th output of its random number generator. -/
def random_gen {n : Nat} (rng : Nat → Nat) (data : Buf Int n) : Buf Int n :=
  for_loop 0 n (fun i d => d.write i (cast_T (rng i))) data

/-- The generator returned by `nearly_sorted_gen(rfrac)`; `rng k` is the `k`-th output of its
random number generator. In `data[rng() % size] = static_cast<T>(rng())` the right operand is
evaluated first. `none` where the behaviour is undefined. -/
def nearly_sorted_gen {n : Nat} (rfrac : Nat) (rng : Nat → Nat) (data : Buf Int n) :
    Option (Buf Int n) :=
  match factor_of n with
  | none => none
  | some factor =>
    if rfrac = 0 then none
    else
      let d1 := for_loop 0 n (fun i d => d.write i (mul_T i factor)) data
      some (for_loop 0 (n / rfrac)
        (fun i d => d.write (rng (2 * i + 1) % n) (cast_T (rng (2 * i)))) d1)

/-- The generator returned by `unsorted_tail_gen(rfrac)`; `rng k` is the `k`-th output of its
random number generator. `none` where the behaviour is undefined. -/
def unsorted_tail_gen {n : Nat} (rfrac : Nat) (rng : Nat → Nat) (data : Buf Int n) :
    Option (Buf Int n) :=
  if rfrac = 0 then none
  else
    let ordered_max := (n - n / rfrac) % U64
    match factor_of ordered_max with
    | none => none
    | some factor =>
      let d1 := for_loop 0 ordered_max (fun i d => d.write i (mul_T i factor)) data
      some (for_loop ordered_max n (fun i d => d.write i (cast_T (rng (i - ordered_max)))) d1)

/-- The generator "sorted". -/
def sorted_gen {n : Nat} (data : Buf Int n) : Buf Int n :=
  for_loop 0 n (fun i d => d.write i (cast_T i)) data

/-- The generator "reverse". -/
def reverse_gen {n : Nat} (data : Buf Int n) : Buf Int n :=
  for_loop 0 n (fun i d => d.write i (cast_T (n - i))) data

/-- The generator "ones". -/
def ones_gen {n : Nat} (data : Buf Int n) : Buf Int n :=
  for_loop 0 n (fun i d => d.write i 1) data

/-- The library function `std::copy(first, last, dest)` from a sequence into the front of a
buffer that is at least as long. -/
def std_copy {α : Type} {n : Nat} (src : List α) (dest : Buf α n) (h : src.length ≤ n) :
    Buf α n :=
  ⟨src ++ dest.toList.drop src.length, by simp; omega⟩

/-- The generator "file" of `strings.cpp`, on the lines read from the input file: the buffer
it leaves and the count it returns. -/
def file_gen {n : Nat} (lines : List String) (data : Buf String n) : Buf String n × Nat :=
  let num_lines := min n lines.length
  (std_copy (lines.take num_lines) data (by simp [num_lines]), num_lines)

/-- A buffer is sorted except for at most `m` positions: some set of at most `m` positions
is such that the elements at the other positions are in non-decreasing order. -/
def sorted_except {n : Nat} (m : Nat) (data : Buf Int n) : Prop :=
  ∃ S : Finset (Fin n), S.card ≤ m ∧
    ∀ i j : Fin n, i ∉ S → j ∉ S → i < j → data.get i ≤ data.get j

end Ssssort

/-! # Verified properties -/

namespace Ssssort

/-! ## Lemmas on the verification step -/

theorem is_sorted_iff_chain (l : List Int) : is_sorted l = true ↔ l.Chain' (fun a b => a ≤ b) := by
  induction l with
  | nil => simp [is_sorted]
  | cons a t ih =>
    cases t with
    | nil => simp [is_sorted]
    | cons b rest =>
      simp only [is_sorted, Bool.and_eq_true, Bool.not_eq_true', decide_eq_false_iff_not, not_lt,
        List.chain'_cons]
      rw [ih]

theorem is_sorted_iff_sorted (l : List Int) : is_sorted l = true ↔ l.Sorted (fun a b => a ≤ b) := by
  rw [is_sorted_iff_chain]
  exact List.chain'_iff_pairwise

theorem foldl_or_eq_any {ι : Type} (p : ι → Bool) (l : List ι) (a : Bool) :
    l.foldl (fun acc i => acc || p i) a = (a || l.any p) := by
  induction l generalizing a with
  | nil => simp
  | cons x t ih => simp [ih, Bool.or_assoc]

theorem sorted_toList_iff {n : Nat} (v : Buf Int n) :
    v.toList.Sorted (fun a b => a ≤ b) ↔ ∀ i j : Fin n, i < j → v.get i ≤ v.get j := by
  constructor
  · intro h i j hij
    rw [Mathlib.Vector.get_eq_get, Mathlib.Vector.get_eq_get]
    exact List.Sorted.rel_get_of_lt h (by simpa using hij)
  · intro h
    refine List.pairwise_iff_get.mpr ?_
    intro i j hij
    have hi : i.1 < n := by have := i.2; simpa using this
    have hj : j.1 < n := by have := j.2; simpa using this
    have := h ⟨i.1, hi⟩ ⟨j.1, hj⟩ (by simpa using hij)
    rw [Mathlib.Vector.get_eq_get, Mathlib.Vector.get_eq_get] at this
    simpa using this

theorem verify_incorrect_eq_false_iff {n : Nat} (out data : Buf Int n) :
    verify_incorrect out data = false ↔
      (∀ i j : Fin n, i < j → out.get i ≤ out.get j) ∧ ∀ i : Fin n, out.get i = data.get i := by
  unfold verify_incorrect
  rw [foldl_or_eq_any, Bool.or_eq_false_iff, ← sorted_toList_iff, ← is_sorted_iff_sorted]
  simp [List.any_eq_false]


/-! ## The verification step (C2) -/

/-- C2: the verification step of `benchmark` yields `correct=1` exactly when the output is in
non-decreasing order and equal to the reference at every position; so it yields `correct=1`
for size 0, and `correct=0` for every strictly descending output of length above 1, whatever
the reference. -/
theorem verify_correct_iff {n : Nat} (out reference : Buf Int n) :
    ((!verify_incorrect out reference) = true ↔
      (∀ i j : Fin n, i < j → out.get i ≤ out.get j) ∧
        ∀ i : Fin n, out.get i = reference.get i) ∧
    (n = 0 → (!verify_incorrect out reference) = true) ∧
    (1 < n → (∀ i j : Fin n, i < j → out.get j < out.get i) →
      (!verify_incorrect out reference) = false) := by
  have key := verify_incorrect_eq_false_iff out reference
  refine ⟨by simpa using key, ?_, ?_⟩
  · intro h0
    subst h0
    have : verify_incorrect out reference = false :=
      key.mpr ⟨fun i => i.elim0, fun i => i.elim0⟩
    simp [this]
  · intro hn hdesc
    have hne : ¬ verify_incorrect out reference = false := by
      intro hf
      have h01 := (key.mp hf).1 ⟨0, by omega⟩ ⟨1, hn⟩ (by simp [Fin.lt_def])
      have h10 := hdesc ⟨0, by omega⟩ ⟨1, hn⟩ (by simp [Fin.lt_def])
      omega
    simpa using hne

/-- Witness of C2: the descending output 2,1 is rejected against the reference 1,2. -/
theorem verify_correct_iff_witness :
    1 < 2 ∧
    (∀ i j : Fin 2, i < j →
      Mathlib.Vector.get (⟨[2, 1], rfl⟩ : Buf Int 2) j
        < Mathlib.Vector.get (⟨[2, 1], rfl⟩ : Buf Int 2) i) ∧
    (!verify_incorrect (⟨[2, 1], rfl⟩ : Buf Int 2) (⟨[1, 2], rfl⟩ : Buf Int 2)) = false :=
  ⟨by decide, by decide,
    (verify_correct_iff (⟨[2, 1], rfl⟩ : Buf Int 2) (⟨[1, 2], rfl⟩ : Buf Int 2)).2.2
      (by decide) (by decide)⟩

/-! ## The progress bar without rendering (C9, C10) -/

theorem draw_of_disabled (b : progress_bar) (h : b.do_draw = false) : b.draw = some b := by
  simp [progress_bar.draw, h]

theorem apply_advance_of_disabled (b : progress_bar) (h : b.do_draw = false) (op : BarOp)
    (hop : op.is_advance = true) :
    ∃ b1, op.apply b = some b1 ∧ b1.out = b.out ∧ b1.lastprogress = b.lastprogress ∧
      b1.do_draw = false := by
  cases op with
  | step =>
    exact ⟨_, draw_of_disabled _ h, rfl, rfl, h⟩
  | stepto p =>
    exact ⟨_, draw_of_disabled _ h, rfl, rfl, h⟩
  | operator_inc => simp [BarOp.is_advance] at hop
  | undraw => simp [BarOp.is_advance] at hop
  | set_extra t => simp [BarOp.is_advance] at hop

/-- C9 (evaluation of the code): on a bar whose destination is not a console stream, so that
its render-enabled flag is false, `undraw` writes a carriage return, 79 blanks and a carriage
return to the destination, and `set_extra` writes the same. -/
theorem undraw_writes_when_disabled :
    (progress_bar.new 10 ['x'] (OStream.fresh (StreamBuf.other 0)) 70).do_draw = false ∧
    (BarOp.apply_all (progress_bar.new 10 ['x'] (OStream.fresh (StreamBuf.other 0)) 70)
        [BarOp.undraw]).map (fun b => b.out.written)
      = some (CR :: List.replicate 79 ' ' ++ [CR]) ∧
    (BarOp.apply_all (progress_bar.new 10 ['x'] (OStream.fresh (StreamBuf.other 0)) 70)
        [BarOp.set_extra ['y']]).map (fun b => b.out.written)
      = some (CR :: List.replicate 79 ' ' ++ [CR]) := by
  decide

/-- C10: on a bar whose render-enabled flag is false, with any maximum (0 included), every
sequence of `step` and `stepto` calls at arbitrary positions runs to its end, writes nothing to
the destination and leaves the last-rendered percentage as it was. -/
theorem advance_silent_when_disabled (b : progress_bar) (hflag : b.do_draw = false)
    (ops : List BarOp) (hops : ∀ op ∈ ops, op.is_advance = true) :
    ∃ b1, BarOp.apply_all b ops = some b1 ∧ b1.out = b.out ∧
      b1.lastprogress = b.lastprogress := by
  induction ops generalizing b with
  | nil => exact ⟨b, rfl, rfl, rfl⟩
  | cons op rest ih =>
    obtain ⟨b1, h1, hout, hlast, hd⟩ :=
      apply_advance_of_disabled b hflag op (hops op (List.mem_cons_self _ _))
    obtain ⟨b2, h2, hout2, hlast2⟩ :=
      ih b1 hd (fun o ho => hops o (List.mem_cons_of_mem _ ho))
    refine ⟨b2, ?_, hout2.trans hout, hlast2.trans hlast⟩
    simp [BarOp.apply_all, h1, h2]

/-- Witness of C10: a bar of maximum 0 on a file stream, stepped and moved three times. -/
theorem advance_silent_when_disabled_witness :
    ∃ b1, BarOp.apply_all (progress_bar.new 0 ['x'] (OStream.fresh (StreamBuf.other 0)) 70)
        [BarOp.step, BarOp.stepto 5, BarOp.stepto (2 ^ 64)] = some b1 ∧
      b1.out = OStream.fresh (StreamBuf.other 0) ∧ b1.lastprogress = -1 :=
  advance_silent_when_disabled
    (progress_bar.new 0 ['x'] (OStream.fresh (StreamBuf.other 0)) 70) (by decide)
    [BarOp.step, BarOp.stepto 5, BarOp.stepto (2 ^ 64)] (by decide)

/-! ## Loops that fill a buffer -/

theorem get_write {α : Type} {n : Nat} (d : Buf α n) (i : Nat) (v : α) (j : Fin n) :
    (d.write i v).get j = if i = j.1 then v else d.get j := by
  rw [Mathlib.Vector.get_eq_get, Mathlib.Vector.get_eq_get]
  simp [Buf.write, Mathlib.Vector.toList, List.getElem_set]

theorem for_loop_self {S : Type} (lo : Nat) (body : Nat → S → S) (s : S) :
    for_loop lo lo body s = s := by
  simp [for_loop]

theorem for_loop_succ {S : Type} (lo k : Nat) (body : Nat → S → S) (s : S) :
    for_loop lo (lo + (k + 1)) body s = body (lo + k) (for_loop lo (lo + k) body s) := by
  simp [for_loop, List.range'_concat]

theorem get_for_loop_untouched {α : Type} {n : Nat} (g : Nat → Nat) (f : Nat → α) (j : Fin n)
    (lo k : Nat) (d : Buf α n) (h : ∀ i, lo ≤ i → i < lo + k → g i ≠ j.1) :
    (for_loop lo (lo + k) (fun i b => b.write (g i) (f i)) d).get j = d.get j := by
  induction k with
  | zero => simp [for_loop_self]
  | succ k ih =>
    rw [for_loop_succ, get_write, if_neg (h (lo + k) (by omega) (by omega))]
    exact ih (fun i h1 h2 => h i h1 (by omega))

theorem get_for_loop_fill {α : Type} {n : Nat} (f : Nat → α) (j : Fin n)
    (lo k : Nat) (d : Buf α n) (h1 : lo ≤ j.1) (h2 : j.1 < lo + k) :
    (for_loop lo (lo + k) (fun i b => b.write i (f i)) d).get j = f j.1 := by
  induction k with
  | zero => omega
  | succ k ih =>
    rw [for_loop_succ, get_write]
    by_cases hj : lo + k = j.1
    · simp [hj]
    · rw [if_neg hj]
      exact ih (by omega)

theorem get_fill_all {α : Type} {n : Nat} (f : Nat → α) (d : Buf α n) (j : Fin n) :
    (for_loop 0 n (fun i b => b.write i (f i)) d).get j = f j.1 := by
  have := get_for_loop_fill f j 0 n d (by omega) (by have := j.2; omega)
  simpa using this

theorem cast_T_of_lt (x : Nat) (h : x < 2 ^ 31) : cast_T x = (x : Int) := by
  unfold cast_T to_int
  omega

theorem toList_eq_ofFn {α : Type} {n : Nat} (d : Buf α n) :
    d.toList = List.ofFn (fun i => d.get i) := by
  conv_lhs => rw [← Mathlib.Vector.ofFn_get d]
  exact Mathlib.Vector.toList_ofFn _

/-! ## The deterministic generators (C7) and the corpus generator (C8) -/

/-- C7: for a size `n` with `0 < n < 2^31`, "sorted" writes `i` at every position `i` (strictly
increasing), "reverse" writes `n - i` at every position `i` (strictly decreasing; the values
8,7,6,5,4,3,2,1 for size 8), and "ones" writes the same value everywhere, so that every
element equals the first. -/
theorem deterministic_generators {n : Nat} (hpos : 0 < n) (hn : n < 2 ^ 31) (data : Buf Int n) :
    (∀ i : Fin n, (sorted_gen data).get i = (i.1 : Int)) ∧
    (∀ i j : Fin n, i < j → (sorted_gen data).get i < (sorted_gen data).get j) ∧
    (∀ i : Fin n, (reverse_gen data).get i = (n : Int) - (i.1 : Int)) ∧
    (∀ i j : Fin n, i < j → (reverse_gen data).get j < (reverse_gen data).get i) ∧
    (n = 8 → (reverse_gen data).toList = [8, 7, 6, 5, 4, 3, 2, 1]) ∧
    (∀ i : Fin n, (ones_gen data).get i = (ones_gen data).get ⟨0, hpos⟩) := by
  have hs : ∀ i : Fin n, (sorted_gen data).get i = (i.1 : Int) := by
    intro i
    unfold sorted_gen
    rw [get_fill_all, cast_T_of_lt _ (by have := i.2; omega)]
  have hr : ∀ i : Fin n, (reverse_gen data).get i = (n : Int) - (i.1 : Int) := by
    intro i
    unfold reverse_gen
    rw [get_fill_all, cast_T_of_lt _ (by omega)]
    have := i.2
    omega
  refine ⟨hs, ?_, hr, ?_, ?_, ?_⟩
  · intro i j hij
    rw [hs, hs]
    have : i.1 < j.1 := hij
    omega
  · intro i j hij
    rw [hr, hr]
    have : i.1 < j.1 := hij
    omega
  · intro h8
    subst h8
    rw [toList_eq_ofFn, funext hr]
    rfl
  · intro i
    unfold ones_gen
    rw [get_fill_all, get_fill_all]

/-- Witness of C7: the three generators at size 8. -/
theorem deterministic_generators_witness :
    (0 < 8 ∧ 8 < 2 ^ 31) ∧ (reverse_gen (zeroed 8)).toList = [8, 7, 6, 5, 4, 3, 2, 1] :=
  ⟨by decide, (deterministic_generators (by decide) (by decide) (zeroed 8)).2.2.2.2.1 rfl⟩

/-- C8: the corpus generator returns `count = min(n, corpus length)`, so `count ≤ n`, and
`count = n` when the corpus has at least `n` lines; it leaves the first `count` corpus lines,
in order, at positions `0..count-1` and every other position as it was. -/
theorem file_gen_spec {n : Nat} (lines : List String) (data : Buf String n) :
    (file_gen lines data).2 = min n lines.length ∧
    (file_gen lines data).2 ≤ n ∧
    (n ≤ lines.length → (file_gen lines data).2 = n) ∧
    (∀ i : Fin n, i.1 < (file_gen lines data).2 →
      lines[i.1]? = some ((file_gen lines data).1.get i)) ∧
    (∀ i : Fin n, (file_gen lines data).2 ≤ i.1 →
      (file_gen lines data).1.get i = data.get i) := by
  refine ⟨rfl, ?_, ?_, ?_, ?_⟩
  · simp [file_gen]
  · intro h
    simp [file_gen, h]
  · intro i hi
    have hi2 : i.1 < min n lines.length := hi
    have hlen : i.1 < lines.length := by omega
    rw [Mathlib.Vector.get_eq_get]
    simp only [file_gen, std_copy, Mathlib.Vector.toList]
    simp only [List.get_eq_getElem, Fin.coe_cast]
    rw [List.getElem_append_left (by simp; omega)]
    simp [List.getElem?_eq_getElem hlen]
  · intro i hi
    have hi2 : min n lines.length ≤ i.1 := hi
    rw [Mathlib.Vector.get_eq_get, Mathlib.Vector.get_eq_get]
    simp only [file_gen, std_copy, Mathlib.Vector.toList]
    simp only [List.get_eq_getElem, Fin.coe_cast]
    rw [List.getElem_append_right (by simp; omega)]
    simp only [List.getElem_drop, List.length_take]
    congr 1
    omega

/-- Witness of C8: a corpus of three lines and a buffer of two, then of five, elements. -/
theorem file_gen_spec_witness :
    2 ≤ ["a", "b", "c"].length ∧
    (file_gen ["a", "b", "c"] (⟨["x", "y"], rfl⟩ : Buf String 2)).2 = 2 ∧
    (file_gen ["a", "b", "c"] (⟨["x", "y", "z", "w", "v"], rfl⟩ : Buf String 5)).1.toList
      = ["a", "b", "c", "w", "v"] :=
  ⟨by decide,
    (file_gen_spec ["a", "b", "c"] (⟨["x", "y"], rfl⟩ : Buf String 2)).2.2.1 (by decide),
    by decide⟩

/-! ## The nearly sorted generators (C6) -/

theorem not_sorted_except {n m : Nat} (d : Buf Int n) (T A B : Finset (Fin n))
    (hA : m + T.card < A.card) (hB : m + T.card < B.card)
    (h : ∀ a ∈ A, ∀ b ∈ B, a ∉ T → b ∉ T → a < b ∧ d.get b < d.get a) :
    ¬ sorted_except m d := by
  rintro ⟨S, hS, hsorted⟩
  have hcard : (S ∪ T).card ≤ m + T.card :=
    (Finset.card_union_le S T).trans (Nat.add_le_add_right hS _)
  have hAs : ¬ A ⊆ S ∪ T := fun hsub => by
    have := Finset.card_le_card hsub
    omega
  have hBs : ¬ B ⊆ S ∪ T := fun hsub => by
    have := Finset.card_le_card hsub
    omega
  obtain ⟨a, haA, haST⟩ := Finset.not_subset.mp hAs
  obtain ⟨b, hbB, hbST⟩ := Finset.not_subset.mp hBs
  rw [Finset.mem_union, not_or] at haST hbST
  obtain ⟨hab, hlt⟩ := h a haA b hbB haST.2 hbST.2
  have := hsorted a b haST.1 hbST.1 hab
  omega

theorem mul_T_small (i f : Nat) (hf : f < 2 ^ 32) (h : i * f < 2 ^ 31) :
    mul_T i (f : Int) = ((i * f : Nat) : Int) := by
  have hf2 : ((f : Int) % (U64 : Int)).toNat = f := by
    unfold U64
    omega
  unfold mul_T
  rw [hf2]
  unfold cast_T to_int U64
  omega

theorem mul_T_wrapped (i f : Nat) (hf : f < 2 ^ 32) (h1 : 2 ^ 31 ≤ i * f) (h2 : i * f < 2 ^ 32) :
    mul_T i (f : Int) = ((i * f : Nat) : Int) - 2 ^ 32 := by
  have hf2 : ((f : Int) % (U64 : Int)).toNat = f := by
    unfold U64
    omega
  unfold mul_T
  rw [hf2]
  unfold cast_T to_int U64
  omega

theorem nearly_sorted_1024_5 (rng : Nat → Nat) (data : Buf Int 1024) :
    ∃ d, nearly_sorted_gen 5 rng data = some d ∧ ¬ sorted_except 205 d := by
  refine ⟨_, by simp [nearly_sorted_gen, factor_of, rng_max]; rfl, ?_⟩
  let T : Finset (Fin 1024) :=
    (Finset.range 204).image (fun i => (⟨rng (2 * i + 1) % 1024, Nat.mod_lt _ (by norm_num)⟩ : Fin 1024))
  have hT : T.card ≤ 204 := (Finset.card_image_le).trans (by simp)
  have hget : ∀ j : Fin 1024, j ∉ T →
      (for_loop 0 (1024 / 5)
        (fun i d => d.write (rng (2 * i + 1) % 1024) (cast_T (rng (2 * i))))
        (for_loop 0 1024 (fun i d => d.write i (mul_T i 4194303)) data)).get j
      = mul_T j.1 4194303 := by
    intro j hj
    have h1 := get_for_loop_untouched (fun i => rng (2 * i + 1) % 1024)
      (fun i => cast_T (rng (2 * i))) j 0 204
      (for_loop 0 1024 (fun i d => d.write i (mul_T i 4194303)) data)
      (by
        intro i _ hi heq
        apply hj
        simp only [T, Finset.mem_image, Finset.mem_range]
        exact ⟨i, by omega, Fin.ext heq⟩)
    have h2 := get_fill_all (fun i => mul_T i 4194303) data j
    simp only [Nat.zero_add] at h1
    rw [show 1024 / 5 = 204 by norm_num, h1, h2]
  apply not_sorted_except _ T (Finset.Icc 1 512) (Finset.Icc 513 1023)
  · simp only [Fin.card_Icc]
    have : ((512 : Fin 1024) : Nat) = 512 := rfl
    have : ((1 : Fin 1024) : Nat) = 1 := rfl
    omega
  · simp only [Fin.card_Icc]
    have : ((1023 : Fin 1024) : Nat) = 1023 := rfl
    have : ((513 : Fin 1024) : Nat) = 513 := rfl
    omega
  · intro a ha b hb haT hbT
    rw [Finset.mem_Icc, Fin.le_def, Fin.le_def] at ha hb
    have ha1 : 1 ≤ a.1 := ha.1
    have ha2 : a.1 ≤ 512 := ha.2
    have hb1 : 513 ≤ b.1 := hb.1
    have hb2 : b.1 ≤ 1023 := hb.2
    refine ⟨Fin.lt_def.mpr (by omega), ?_⟩
    rw [hget a haT, hget b hbT]
    have e1 := mul_T_small a.1 4194303 (by norm_num) (by omega)
    have e2 := mul_T_wrapped b.1 4194303 (by norm_num) (by omega) (by omega)
    simp only [Nat.cast_ofNat] at e1 e2
    rw [e1, e2]
    omega

theorem unsorted_tail_1024_10 (rng : Nat → Nat) (data : Buf Int 1024) :
    ∃ d, unsorted_tail_gen 10 rng data = some d ∧ ¬ sorted_except 103 d := by
  refine ⟨_, by simp [unsorted_tail_gen, factor_of, rng_max, U64]; rfl, ?_⟩
  have hget : ∀ j : Fin 1024, j.1 < 922 →
      (for_loop 922 1024 (fun i d => d.write i (cast_T (rng (i - 922))))
        (for_loop 0 922 (fun i d => d.write i (mul_T i 4658315)) data)).get j
      = mul_T j.1 4658315 := by
    intro j hj
    have h1 := get_for_loop_untouched (fun i => i) (fun i => cast_T (rng (i - 922))) j 922 102
      (for_loop 0 922 (fun i d => d.write i (mul_T i 4658315)) data)
      (by
        intro i h1 _
        show i ≠ j.1
        omega)
    have h2 := get_for_loop_fill (fun i => mul_T i 4658315) j 0 922 data (by omega) (by omega)
    simp only [Nat.zero_add] at h2
    rw [show (922 + 102 : Nat) = 1024 by norm_num] at h1
    rw [h1, h2]
  apply not_sorted_except _ ∅ (Finset.Icc 1 461) (Finset.Icc 462 921)
  · simp only [Fin.card_Icc, Finset.card_empty]
    have : ((461 : Fin 1024) : Nat) = 461 := rfl
    have : ((1 : Fin 1024) : Nat) = 1 := rfl
    omega
  · simp only [Fin.card_Icc, Finset.card_empty]
    have : ((921 : Fin 1024) : Nat) = 921 := rfl
    have : ((462 : Fin 1024) : Nat) = 462 := rfl
    omega
  · intro a ha b hb _ _
    rw [Finset.mem_Icc, Fin.le_def, Fin.le_def] at ha hb
    have ha1 : 1 ≤ a.1 := ha.1
    have ha2 : a.1 ≤ 461 := ha.2
    have hb1 : 462 ≤ b.1 := hb.1
    have hb2 : b.1 ≤ 921 := hb.2
    refine ⟨Fin.lt_def.mpr (by omega), ?_⟩
    rw [hget a (by omega), hget b (by omega)]
    have e1 := mul_T_small a.1 4658315 (by norm_num) (by omega)
    have e2 := mul_T_wrapped b.1 4658315 (by norm_num) (by omega) (by omega)
    simp only [Nat.cast_ofNat] at e1 e2
    rw [e1, e2]
    omega

/-- C6 (evaluation of the code): at size 1024, whatever the outputs of the random number
generator and the initial content of the buffer, the buffer that nearly-sorted(5) produces is
not sorted except for 205 = ceil(1024/5) positions, and the buffer that unsorted-tail(10)
produces is not sorted except for 103 = ceil(1024/10) positions: the products `i * factor`
reach `2^31` in the middle of the buffer and wrap to negative values, so the fill is two
ascending runs, the second below the first. -/
theorem nearly_sorted_generators_wrap (rng : Nat → Nat) (data : Buf Int 1024) :
    (∃ d, nearly_sorted_gen 5 rng data = some d ∧ ¬ sorted_except 205 d) ∧
    (∃ d, unsorted_tail_gen 10 rng data = some d ∧ ¬ sorted_except 103 d) ∧
    mul_T 512 4194303 = 2147483136 ∧ mul_T 513 4194303 = -2143289857 :=
  ⟨nearly_sorted_1024_5 rng data, unsorted_tail_1024_10 rng data, by decide, by decide⟩

/-! ## The progress bar inside `run` -/

theorem percent_le (pos max : Nat) (h : pos ≤ max) :
    (pos * 100) % U64 / max ≤ 100 := by
  apply Nat.div_le_of_le_mul
  calc (pos * 100) % U64 ≤ pos * 100 := Nat.mod_le _ _
    _ ≤ max * 100 := Nat.mul_le_mul_right _ h

theorem to_int_of_le_100 (x : Nat) (h : x ≤ 100) : to_int (x : Int) = (x : Int) := by
  unfold to_int
  omega

theorem operator_inc_some (b : progress_bar) (hw : b.barwidth = 70) (h0 : 0 < b.max)
    (h1 : b.max < U64) (hpos : b.pos < b.max) :
    ∃ b1, b.operator_inc = some b1 ∧ b1.pos = b.pos + 1 ∧ b1.max = b.max ∧
      b1.barwidth = 70 ∧ b1.extra = b.extra := by
  have hp : (b.pos + 1) % U64 = b.pos + 1 := Nat.mod_eq_of_lt (by omega)
  have hq := percent_le (b.pos + 1) b.max (by omega)
  have hr : in_int_range (b.barwidth * to_int ((((b.pos + 1) * 100 % U64 / b.max : Nat)) : Int))
      = true := by
    rw [to_int_of_le_100 _ hq, hw]
    generalize (b.pos + 1) * 100 % U64 / b.max = q at hq
    unfold in_int_range
    simp only [Bool.and_eq_true, decide_eq_true_eq]
    omega
  unfold progress_bar.operator_inc progress_bar.step progress_bar.draw
  simp only [hp, hr]
  split_ifs with c1 c2 c3 c4
  · exact ⟨_, rfl, rfl, rfl, hw, rfl⟩
  · omega
  · exact ⟨_, rfl, rfl, rfl, hw, rfl⟩
  · simp at c4
  · exact ⟨_, rfl, rfl, rfl, hw, rfl⟩

theorem operator_inc_none (b : progress_bar) (hd : b.do_draw = true) (h0 : b.max = 0) :
    b.operator_inc = none := by
  simp [progress_bar.operator_inc, progress_bar.step, progress_bar.draw, hd, h0]

theorem undraw_some (b : progress_bar) (hw : b.barwidth = 70)
    (hlen : b.extra.length + 78 < 2 ^ 31) :
    ∃ b1, b.undraw = some b1 ∧ b1.pos = b.pos ∧ b1.max = b.max := by
  have hl : to_int (b.extra.length : Int) = (b.extra.length : Int) := by
    unfold to_int
    omega
  have r1 : in_int_range (b.barwidth + 8) = true := by
    rw [hw]
    decide
  have r2 : in_int_range (b.barwidth + 8 + to_int (b.extra.length : Int)) = true := by
    rw [hw, hl]
    unfold in_int_range
    simp only [Bool.and_eq_true, decide_eq_true_eq]
    omega
  unfold progress_bar.undraw
  simp only [r1, r2]
  exact ⟨_, rfl, rfl, rfl⟩

/-! ## Traces -/

theorem calls_append {n : Nat} {τ : Type} (a b : List (Event n τ)) :
    calls (a ++ b) = calls a ++ calls b := by
  induction a with
  | nil => rfl
  | cons e t ih => cases e <;> simp [calls, ih]

theorem measured_calls_append {n : Nat} {τ : Type} (a b : List (Event n τ)) :
    measured_calls (a ++ b) = measured_calls a ++ measured_calls b := by
  simp [measured_calls, calls_append]

theorem readings_append {n : Nat} {τ : Type} (a b : List (Event n τ)) :
    readings (a ++ b) = readings a ++ readings b := by
  induction a with
  | nil => rfl
  | cons e t ih => cases e <;> simp [readings, ih]

/-! ## Invariants of `run` -/

/-- A property of the state of `run` that every bar operation keeps, that the work of every
loop iteration keeps, and that holds after the warm-up call, holds in the state in which `run`
ends (returned or stopped). -/
theorem run_loop_preserves {σ τ : Type} [Add τ] {n : Nat} (sorter : Sorter σ n)
    (reset_out : Bool) (timer : Nat → τ) (P : RunState σ τ n → Prop)
    (hbar : ∀ (s : RunState σ τ n) (b : progress_bar), P s →
      P { s with trace := s.trace ++ [Event.bar_inc], bar := b })
    (hwork : ∀ (it : Nat) (s : RunState σ τ n), P s → P (loop_work sorter reset_out timer it s))
    (todo it : Nat) (s : RunState σ τ n) (hs : P s) :
    P (final_state (run_loop sorter reset_out timer todo it s)) := by
  induction todo generalizing it s with
  | zero => exact hs
  | succ k ih =>
    have hw := hwork it s hs
    unfold run_loop run_body inc_bar
    cases hb : (loop_work sorter reset_out timer it s).bar.operator_inc with
    | none => exact hbar _ (loop_work sorter reset_out timer it s).bar hw
    | some b => exact ih (it + 1) _ (hbar _ b hw)

theorem run_preserves {σ τ : Type} [Zero τ] [Add τ] {n : Nat} (data copy out : Buf Int n)
    (sorter : Sorter σ n) (iterations : Nat) (algoname : Text) (reset_out : Bool)
    (st : σ) (timer : Nat → τ) (console : Text) (P : RunState σ τ n → Prop)
    (hinc : ∀ (s : RunState σ τ n) (b : progress_bar), P s →
      P { s with trace := s.trace ++ [Event.bar_inc], bar := b })
    (hundraw : ∀ (s : RunState σ τ n) (b : progress_bar), P s →
      P { s with trace := s.trace ++ [Event.bar_undraw], bar := b })
    (hwork : ∀ (it : Nat) (s : RunState σ τ n), P s → P (loop_work sorter reset_out timer it s))
    (hinit : P (call_sorter sorter none (run_init data copy out iterations algoname st console))) :
    P (final_state (run data copy out sorter iterations algoname reset_out st timer console)) := by
  unfold run
  simp only
  unfold inc_bar
  cases hb : (call_sorter sorter none
      (run_init data copy out iterations algoname st console : RunState σ τ n)).bar.operator_inc with
  | none => exact hinc _ _ hinit
  | some b =>
    simp only
    have h2 := run_loop_preserves sorter reset_out timer P hinc hwork iterations 0 _
      (hinc _ b hinit)
    revert h2
    cases run_loop sorter reset_out timer iterations 0 _ with
    | error e => exact fun h => h
    | ok s3 =>
      intro h2
      simp only [final_state] at h2
      simp only [undraw_bar]
      cases hu : s3.bar.undraw with
      | none => exact hundraw _ s3.bar h2
      | some b2 => exact hundraw _ b2 h2

/-! ## Returning runs -/

theorem loop_work_facts {σ τ : Type} [Add τ] {n : Nat} (sorter : Sorter σ n)
    (reset_out : Bool) (timer : Nat → τ) (it : Nat) (s : RunState σ τ n) :
    (loop_work sorter reset_out timer it s).bar = s.bar ∧
    (loop_work sorter reset_out timer it s).copy = s.copy ∧
    (loop_work sorter reset_out timer it s).trace.map Event.kind =
      s.trace.map Event.kind ++ ([EventKind.memcpy_data] ++
        (if reset_out then [EventKind.memset_out] else []) ++
        [EventKind.timer_reset, EventKind.sorter_call, EventKind.timer_get]) ∧
    readings (loop_work sorter reset_out timer it s).trace = readings s.trace ++ [timer it] ∧
    (loop_work sorter reset_out timer it s).time = s.time + timer it ∧
    (measured_calls (loop_work sorter reset_out timer it s).trace).length =
      (measured_calls s.trace).length + 1 := by
  cases reset_out <;>
    simp [loop_work, call_sorter, Event.kind, readings_append, readings, measured_calls,
      calls_append, calls]

theorem run_loop_ok {σ τ : Type} [Add τ] {n : Nat} (sorter : Sorter σ n)
    (reset_out : Bool) (timer : Nat → τ) (todo it : Nat) (s : RunState σ τ n)
    (hw : s.bar.barwidth = 70) (h0 : 0 < s.bar.max) (h1 : s.bar.max < U64)
    (hpos : s.bar.pos + todo ≤ s.bar.max) :
    ∃ s1, run_loop sorter reset_out timer todo it s = Except.ok s1 ∧
      s1.bar.pos = s.bar.pos + todo ∧ s1.bar.max = s.bar.max ∧ s1.bar.barwidth = 70 ∧
      s1.bar.extra = s.bar.extra ∧
      s1.trace.map Event.kind = s.trace.map Event.kind ++
        (List.replicate todo (iteration_protocol reset_out)).flatten ∧
      readings s1.trace = readings s.trace ++ (List.range' it todo).map timer ∧
      s1.time = ((List.range' it todo).map timer).foldl (fun t r => t + r) s.time ∧
      (measured_calls s1.trace).length = (measured_calls s.trace).length + todo := by
  induction todo generalizing it s with
  | zero => exact ⟨s, rfl, rfl, rfl, hw, rfl, by simp, by simp, rfl, rfl⟩
  | succ k ih =>
    obtain ⟨fbar, _, fkind, fread, ftime, fmeas⟩ := loop_work_facts sorter reset_out timer it s
    obtain ⟨b1, hb1, hp1, hm1, hw1, he1⟩ :=
      operator_inc_some (loop_work sorter reset_out timer it s).bar
        (by rw [fbar]; exact hw) (by rw [fbar]; exact h0) (by rw [fbar]; exact h1)
        (by rw [fbar]; omega)
    rw [fbar] at hp1 hm1 he1
    obtain ⟨s2, hs2, gp, gm, gw, ge, gkind, gread, gtime, gmeas⟩ :=
      ih (it + 1)
        { loop_work sorter reset_out timer it s with
          trace := (loop_work sorter reset_out timer it s).trace ++ [Event.bar_inc], bar := b1 }
        hw1 (by simpa [hm1] using h0) (by simpa [hm1] using h1) (by simp only [hp1, hm1]; omega)
    dsimp only at hs2 gp gm ge gkind gread gtime gmeas
    refine ⟨s2, ?_, ?_, ?_, gw, ?_, ?_, ?_, ?_, ?_⟩
    · simp only [run_loop, run_body, inc_bar, hb1]
      exact hs2
    · rw [gp]
      simp only [hp1]
      omega
    · rw [gm, hm1]
    · rw [ge, he1]
    · rw [gkind]
      simp only [List.map_append, fkind, List.replicate_succ, List.flatten_cons,
        iteration_protocol, List.map_cons, List.map_nil, Event.kind]
      cases reset_out <;> simp
    · rw [gread]
      simp only [readings_append, fread, readings, List.append_nil, List.range'_succ,
        List.map_cons, List.append_assoc, List.singleton_append]
    · rw [gtime]
      simp only [ftime, List.range'_succ, List.map_cons, List.foldl_cons]
    · rw [gmeas, measured_calls_append, List.length_append, fmeas]
      have : (measured_calls ([Event.bar_inc] : List (Event n τ))).length = 0 := rfl
      omega

theorem run_init_bar {σ τ : Type} [Zero τ] {n : Nat} (data copy out : Buf Int n)
    (sorter : Sorter σ n) (iterations : Nat) (algoname : Text) (st : σ) (console : Text) :
    (call_sorter sorter none
      (run_init data copy out iterations algoname st console : RunState σ τ n)).bar
      = progress_bar.new ((iterations + 1) % U64) algoname (std_cout console) 70 := rfl

/-- For an iteration count `N` with `N + 1 < 2^64` and a label shorter than `2^31 - 78`
characters, `run` returns; the kinds of the events of its trace are the protocol of the spec,
the timer was read `N` times, the value returned is the sum of these readings in order, and
`N` sorter calls are measured. -/
theorem run_returns {σ τ : Type} [Zero τ] [Add τ] {n : Nat} (data copy out : Buf Int n)
    (sorter : Sorter σ n) (iterations : Nat) (algoname : Text) (reset_out : Bool)
    (st : σ) (timer : Nat → τ) (console : Text)
    (hN : iterations + 1 < U64) (hlen : algoname.length + 78 < 2 ^ 31) :
    ∃ s, run data copy out sorter iterations algoname reset_out st timer console = Except.ok s ∧
      s.trace.map Event.kind = run_protocol reset_out iterations ∧
      readings s.trace = (List.range iterations).map timer ∧
      s.time = ((List.range iterations).map timer).foldl (fun t r => t + r) 0 ∧
      (measured_calls s.trace).length = iterations := by
  have hbar := run_init_bar (τ := τ) data copy out sorter iterations algoname st console
  have hmax : (progress_bar.new ((iterations + 1) % U64) algoname (std_cout console) 70).max
      = iterations + 1 := by
    simp [progress_bar.new, Nat.mod_eq_of_lt hN]
  obtain ⟨b1, hb1, hp1, hm1, hw1, he1⟩ :=
    operator_inc_some (progress_bar.new ((iterations + 1) % U64) algoname (std_cout console) 70)
      rfl (by rw [hmax]; omega) (by rw [hmax]; exact hN) (by rw [hmax]; simp [progress_bar.new])
  rw [hmax] at hm1
  have hp1' : b1.pos = 1 := by simpa [progress_bar.new] using hp1
  have he1' : b1.extra = algoname := by simpa [progress_bar.new] using he1
  obtain ⟨s3, hs3, gp, gm, gw, ge, gkind, gread, gtime, gmeas⟩ :=
    run_loop_ok sorter reset_out timer iterations 0
      { call_sorter sorter none
          (run_init data copy out iterations algoname st console : RunState σ τ n) with
        trace := (call_sorter sorter none
          (run_init data copy out iterations algoname st console : RunState σ τ n)).trace
            ++ [Event.bar_inc], bar := b1 }
      hw1 (by simp only [hm1]; omega) (by simp only [hm1]; exact hN)
      (by simp only [hm1, hp1']; omega)
  dsimp only at hs3 gp gm ge gkind gread gtime gmeas
  obtain ⟨b4, hb4, _, _⟩ := undraw_some s3.bar gw (by rw [ge, he1']; exact hlen)
  refine ⟨{ s3 with trace := s3.trace ++ [Event.bar_undraw], bar := b4 }, ?_, ?_, ?_, ?_, ?_⟩
  · simp only [run, inc_bar, hbar, hb1, hs3, undraw_bar, hb4]
  · simp only [List.map_append, gkind, run_protocol]
    simp [call_sorter, run_init, Event.kind]
  · simp only [readings_append, gread, List.range_eq_range']
    simp [call_sorter, run_init, readings]
  · simp only [gtime, List.range_eq_range']
    simp [call_sorter, run_init]
  · simp only [measured_calls_append, List.length_append, gmeas]
    simp [call_sorter, run_init, measured_calls, calls]

/-- For the iteration count `2^64 - 1` the maximum of the bar is `0`: the execution of `run`
stops at the first `++bar`, after the warm-up call alone. -/
theorem run_stops {σ τ : Type} [Zero τ] [Add τ] {n : Nat} (data copy out : Buf Int n)
    (sorter : Sorter σ n) (iterations : Nat) (algoname : Text) (reset_out : Bool)
    (st : σ) (timer : Nat → τ) (console : Text) (hN : iterations + 1 = U64) :
    returned (run data copy out sorter iterations algoname reset_out st timer console) = false ∧
    (final_state (run data copy out sorter iterations algoname reset_out st timer console)).trace
      = [Event.sorter_call none data out (sorter st data out).2.1 (sorter st data out).2.2,
          Event.bar_inc] := by
  have hbar := run_init_bar (τ := τ) data copy out sorter iterations algoname st console
  have hnone : (progress_bar.new ((iterations + 1) % U64) algoname (std_cout console)
      70).operator_inc = none :=
    operator_inc_none _ (by simp [progress_bar.new, std_cout]) (by simp [progress_bar.new, hN])
  simp only [run, inc_bar, hbar, hnone]
  exact ⟨rfl, rfl⟩

/-! ## The buffers during `run` (C3, C4) -/

theorem run_end_preserves {σ τ : Type} [Zero τ] [Add τ] {n : Nat} (data copy out : Buf Int n)
    (sorter : Sorter σ n) (iterations : Nat) (algoname : Text) (reset_out : Bool)
    (st : σ) (timer : Nat → τ) (console : Text) (P : RunState σ τ n → Prop)
    (hbar : ∀ (s : RunState σ τ n) (e : Event n τ) (b : progress_bar),
      e = Event.bar_inc ∨ e = Event.bar_undraw → P s →
      P { s with trace := s.trace ++ [e], bar := b })
    (hwork : ∀ (it : Nat) (s : RunState σ τ n), P s → P (loop_work sorter reset_out timer it s))
    (hinit : P (call_sorter sorter none (run_init data copy out iterations algoname st console))) :
    P (run_end data copy out sorter iterations algoname reset_out st timer console) :=
  run_preserves data copy out sorter iterations algoname reset_out st timer console P
    (fun s b h => hbar s _ b (Or.inl rfl) h) (fun s b h => hbar s _ b (Or.inr rfl) h) hwork hinit

theorem measured_calls_bar {n : Nat} {τ : Type} (tr : List (Event n τ)) (e : Event n τ)
    (he : e = Event.bar_inc ∨ e = Event.bar_undraw) :
    measured_calls (tr ++ [e]) = measured_calls tr ∧ calls (tr ++ [e]) = calls tr := by
  rcases he with rfl | rfl <;> simp [measured_calls, calls_append, calls]

theorem loop_work_true {σ τ : Type} [Add τ] {n : Nat} (sorter : Sorter σ n)
    (timer : Nat → τ) (it : Nat) (s : RunState σ τ n) :
    loop_work sorter true timer it s =
      { data := (sorter s.sorter_state s.copy (zeroed n)).2.1
        copy := s.copy
        out := (sorter s.sorter_state s.copy (zeroed n)).2.2
        sorter_state := (sorter s.sorter_state s.copy (zeroed n)).1
        bar := s.bar
        time := s.time + timer it
        trace := s.trace ++ [Event.memcpy_data, Event.memset_out, Event.timer_reset,
          Event.sorter_call (some it) s.copy (zeroed n)
            (sorter s.sorter_state s.copy (zeroed n)).2.1
            (sorter s.sorter_state s.copy (zeroed n)).2.2,
          Event.timer_get (timer it)] } := by
  simp [loop_work, call_sorter]

theorem loop_work_false {σ τ : Type} [Add τ] {n : Nat} (sorter : Sorter σ n)
    (timer : Nat → τ) (it : Nat) (s : RunState σ τ n) :
    loop_work sorter false timer it s =
      { data := (sorter s.sorter_state s.copy s.out).2.1
        copy := s.copy
        out := (sorter s.sorter_state s.copy s.out).2.2
        sorter_state := (sorter s.sorter_state s.copy s.out).1
        bar := s.bar
        time := s.time + timer it
        trace := s.trace ++ [Event.memcpy_data, Event.timer_reset,
          Event.sorter_call (some it) s.copy s.out
            (sorter s.sorter_state s.copy s.out).2.1
            (sorter s.sorter_state s.copy s.out).2.2,
          Event.timer_get (timer it)] } := by
  simp [loop_work, call_sorter]

theorem calls_work_true {n : Nat} {τ : Type} (tr : List (Event n τ)) (it : Option Nat)
    (d o d1 o1 : Buf Int n) (t : τ) :
    calls (tr ++ [Event.memcpy_data, Event.memset_out, Event.timer_reset,
      Event.sorter_call it d o d1 o1, Event.timer_get t]) =
    calls tr ++ [{ it := it, data_in := d, out_in := o, data_after := d1, out_after := o1 }] := by
  simp [calls_append, calls]

theorem calls_work_false {n : Nat} {τ : Type} (tr : List (Event n τ)) (it : Option Nat)
    (d o d1 o1 : Buf Int n) (t : τ) :
    calls (tr ++ [Event.memcpy_data, Event.timer_reset,
      Event.sorter_call it d o d1 o1, Event.timer_get t]) =
    calls tr ++ [{ it := it, data_in := d, out_in := o, data_after := d1, out_after := o1 }] := by
  simp [calls_append, calls]

theorem measured_calls_work {σ τ : Type} [Add τ] {n : Nat} (sorter : Sorter σ n)
    (reset_out : Bool) (timer : Nat → τ) (it : Nat) (s : RunState σ τ n) :
    measured_calls (loop_work sorter reset_out timer it s).trace =
      measured_calls s.trace ++
        [{ it := some it
           data_in := s.copy
           out_in := if reset_out then zeroed n else s.out
           data_after := (loop_work sorter reset_out timer it s).data
           out_after := (loop_work sorter reset_out timer it s).out }] := by
  cases reset_out
  · rw [loop_work_false]
    simp [measured_calls, calls_work_false]
  · rw [loop_work_true]
    simp [measured_calls, calls_work_true]

theorem run_end_pristine {σ τ : Type} [Zero τ] [Add τ] {n : Nat} (data copy out : Buf Int n)
    (sorter : Sorter σ n) (iterations : Nat) (algoname : Text) (reset_out : Bool)
    (st : σ) (timer : Nat → τ) (console : Text) :
    (run_end data copy out sorter iterations algoname reset_out st timer console).copy = copy ∧
    ∀ c ∈ measured_calls
        (run_end data copy out sorter iterations algoname reset_out st timer console).trace,
      c.data_in = copy ∧ (reset_out = true → c.out_in = zeroed n) := by
  apply run_end_preserves data copy out sorter iterations algoname reset_out st timer console
    (fun s => s.copy = copy ∧ ∀ c ∈ measured_calls s.trace,
      c.data_in = copy ∧ (reset_out = true → c.out_in = zeroed n))
  · intro s e b he h
    simpa [(measured_calls_bar s.trace e he).1] using h
  · intro it s h
    obtain ⟨hc, hm⟩ := h
    refine ⟨by rw [(loop_work_facts sorter reset_out timer it s).2.1]; exact hc, ?_⟩
    intro c hcm
    rw [measured_calls_work, List.mem_append, List.mem_singleton] at hcm
    rcases hcm with hcm | hcm
    · exact hm c hcm
    · subst hcm
      exact ⟨hc, fun hr => by simp [hr]⟩
  · simp [call_sorter, run_init, measured_calls, calls]

theorem run_end_keeps_out {σ τ : Type} [Zero τ] [Add τ] {n : Nat} (data copy out : Buf Int n)
    (sorter : Sorter σ n) (iterations : Nat) (algoname : Text)
    (st : σ) (timer : Nat → τ) (console : Text)
    (hframe : ∀ (s : σ) (d o : Buf Int n), (sorter s d o).2.2 = o) :
    (run_end data copy out sorter iterations algoname false st timer console).out = out ∧
    (∀ e ∈ (run_end data copy out sorter iterations algoname false st timer console).trace,
      e.kind ≠ EventKind.memset_out) ∧
    ∀ c ∈ calls (run_end data copy out sorter iterations algoname false st timer console).trace,
      c.out_in = out ∧ c.out_after = out := by
  apply run_end_preserves data copy out sorter iterations algoname false st timer console
    (fun s => s.out = out ∧ (∀ e ∈ s.trace, e.kind ≠ EventKind.memset_out) ∧
      ∀ c ∈ calls s.trace, c.out_in = out ∧ c.out_after = out)
  · intro s e b he h
    obtain ⟨h1, h2, h3⟩ := h
    refine ⟨h1, ?_, ?_⟩
    · intro e1 he1
      rcases List.mem_append.mp he1 with h | h
      · exact h2 e1 h
      · rw [List.mem_singleton] at h
        subst h
        rcases he with rfl | rfl <;> simp [Event.kind]
    · simpa [(measured_calls_bar s.trace e he).2] using h3
  · intro it s h
    obtain ⟨h1, h2, h3⟩ := h
    rw [loop_work_false]
    refine ⟨by simp [hframe, h1], ?_, ?_⟩
    · intro e he
      rcases List.mem_append.mp he with h | h
      · exact h2 e h
      · simp only [List.mem_cons, List.mem_singleton, List.not_mem_nil, or_false] at h
        rcases h with h | h | h | h <;> subst h <;> simp [Event.kind]
    · intro c hc
      simp only [calls_work_false, List.mem_append, List.mem_singleton] at hc
      rcases hc with h | h
      · exact h3 c h
      · subst h
        simp [hframe, h1]
  · simp only [call_sorter, run_init, calls, List.nil_append]
    refine ⟨by simp [hframe], ?_, ?_⟩
    · intro e he
      rw [List.mem_singleton] at he
      subst he
      simp [Event.kind]
    · intro c hc
      rw [List.mem_singleton] at hc
      subst hc
      simp [hframe]

theorem run_end_of_ok {σ τ : Type} [Zero τ] [Add τ] {n : Nat} {data copy out : Buf Int n}
    {sorter : Sorter σ n} {iterations : Nat} {algoname : Text} {reset_out : Bool}
    {st : σ} {timer : Nat → τ} {console : Text} {s : RunState σ τ n}
    (h : run data copy out sorter iterations algoname reset_out st timer console = Except.ok s) :
    run_end data copy out sorter iterations algoname reset_out st timer console = s := by
  simp [run_end, h, final_state]

/-- C3: at every measured sorter invocation of `run` the working buffer equals the pristine
copy and, when `reset_out` is true, every element of the output buffer is zero; the pristine
copy is at the end as it was on entry. For an iteration count `N` with `N + 1 < 2^64` the
run returns and these measured invocations are `N`. -/
theorem measured_calls_on_pristine {σ τ : Type} [Zero τ] [Add τ] {n : Nat}
    (data copy out : Buf Int n) (sorter : Sorter σ n) (iterations : Nat) (algoname : Text)
    (reset_out : Bool) (st : σ) (timer : Nat → τ) (console : Text) :
    (∀ c ∈ measured_calls
        (run_end data copy out sorter iterations algoname reset_out st timer console).trace,
      (∀ i : Fin n, c.data_in.get i = copy.get i) ∧
        (reset_out = true → ∀ i : Fin n, c.out_in.get i = 0)) ∧
    (run_end data copy out sorter iterations algoname reset_out st timer console).copy = copy ∧
    (iterations + 1 < U64 → algoname.length + 78 < 2 ^ 31 →
      returned (run data copy out sorter iterations algoname reset_out st timer console) = true ∧
      (measured_calls
        (run_end data copy out sorter iterations algoname reset_out st timer console).trace).length
        = iterations) := by
  obtain ⟨hcopy, hcalls⟩ :=
    run_end_pristine data copy out sorter iterations algoname reset_out st timer console
  refine ⟨?_, hcopy, ?_⟩
  · intro c hc
    obtain ⟨h1, h2⟩ := hcalls c hc
    refine ⟨fun i => by rw [h1], fun hr i => ?_⟩
    rw [h2 hr]
    exact Mathlib.Vector.get_replicate 0 i
  · intro hN hlen
    obtain ⟨s, hs, _, _, _, hm⟩ :=
      run_returns data copy out sorter iterations algoname reset_out st timer console hN hlen
    rw [run_end_of_ok hs, hs]
    exact ⟨rfl, hm⟩

/-- Witness of C3: three measured iterations of a sorter that writes the sorted data to
`out`, on buffers of two elements. -/
theorem measured_calls_on_pristine_witness :
    (3 + 1 < U64 ∧ ['a', 'b'].length + 78 < 2 ^ 31) ∧
    returned (run (⟨[4, 3], rfl⟩ : Buf Int 2) ⟨[2, 1], rfl⟩ ⟨[7, 7], rfl⟩
      (fun (st : Unit) d _ => (st, d, std_sort d)) 3 ['a', 'b'] true () (fun _ => (1 : Nat))
      []) = true ∧
    (measured_calls (run_end (⟨[4, 3], rfl⟩ : Buf Int 2) ⟨[2, 1], rfl⟩ ⟨[7, 7], rfl⟩
      (fun (st : Unit) d _ => (st, d, std_sort d)) 3 ['a', 'b'] true () (fun _ => (1 : Nat))
      []).trace).length = 3 :=
  ⟨by decide,
    (measured_calls_on_pristine (⟨[4, 3], rfl⟩ : Buf Int 2) ⟨[2, 1], rfl⟩ ⟨[7, 7], rfl⟩
      (fun (st : Unit) d _ => (st, d, std_sort d)) 3 ['a', 'b'] true () (fun _ => (1 : Nat))
      []).2.2 (by decide) (by decide)⟩

/-- C4: with `reset_out = false` and a sorter that never writes its output argument, the
output buffer is, when `run` ends, exactly as it was on entry: it is not zeroed (the trace has
no `memset`) and every sorter call finds it and leaves it as it was on entry; for an iteration
count `N` with `N + 1 < 2^64` the run returns. So in `benchmark` the baseline run ends with
the output buffer that the candidate run left, which is the buffer that is verified. -/
theorem out_kept_without_reset {σ τ : Type} [Zero τ] [Add τ] {n : Nat}
    (data copy out : Buf Int n) (sorter : Sorter σ n) (iterations : Nat) (algoname : Text)
    (st : σ) (timer : Nat → τ) (console : Text)
    (hframe : ∀ (s : σ) (d o : Buf Int n), (sorter s d o).2.2 = o) :
    (run_end data copy out sorter iterations algoname false st timer console).out = out ∧
    (∀ e ∈ (run_end data copy out sorter iterations algoname false st timer console).trace,
      e.kind ≠ EventKind.memset_out) ∧
    (∀ c ∈ calls (run_end data copy out sorter iterations algoname false st timer console).trace,
      c.out_in = out ∧ c.out_after = out) ∧
    (iterations + 1 < U64 → algoname.length + 78 < 2 ^ 31 →
      returned (run data copy out sorter iterations algoname false st timer console) = true) ∧
    (∀ (ρ : Type) (env : BenchEnv ρ τ n) (s1 : RunState ρ τ n),
      (final_state (stdsort_run iterations env s1)).out = s1.out) := by
  obtain ⟨h1, h2, h3⟩ :=
    run_end_keeps_out data copy out sorter iterations algoname st timer console hframe
  refine ⟨h1, h2, h3, ?_, ?_⟩
  · intro hN hlen
    obtain ⟨s, hs, _⟩ :=
      run_returns data copy out sorter iterations algoname false st timer console hN hlen
    rw [hs]
    rfl
  · intro ρ env s1
    exact (run_end_keeps_out s1.data s1.copy s1.out stdsort_lambda iterations
      "std::sort: ".toList () env.timer_stdsort s1.bar.out.written (fun _ _ _ => rfl)).1

/-- Witness of C4: two iterations of the `std::sort` lambda leave the output buffer 7,8,9. -/
theorem out_kept_without_reset_witness :
    (∀ (s : Unit) (d o : Buf Int 3), (stdsort_lambda s d o).2.2 = o) ∧
    (run_end (⟨[3, 1, 2], rfl⟩ : Buf Int 3) ⟨[3, 1, 2], rfl⟩ ⟨[7, 8, 9], rfl⟩
      stdsort_lambda 2 ['s'] false () (fun _ => (1 : Nat)) []).out = ⟨[7, 8, 9], rfl⟩ :=
  ⟨fun _ _ _ => rfl,
    (out_kept_without_reset (⟨[3, 1, 2], rfl⟩ : Buf Int 3) ⟨[3, 1, 2], rfl⟩ ⟨[7, 8, 9], rfl⟩
      stdsort_lambda 2 ['s'] () (fun _ => (1 : Nat)) [] (fun _ _ _ => rfl)).1⟩

/-! ## The protocol of `run` (C5) -/

/-- C5 (evaluation of the code): with the iteration count `2^64 - 1`, which `main` passes on
for the argument `-1`, `run` does not return: the maximum `iterations + 1` of the progress bar
wraps to 0, the first `++bar` divides by it, and the execution stops after the warm-up call,
with one sorter call instead of `2^64`, no measured iteration and no undraw. -/
theorem run_at_max_iterations {σ τ : Type} [Zero τ] [Add τ] {n : Nat}
    (data copy out : Buf Int n) (sorter : Sorter σ n) (algoname : Text)
    (reset_out : Bool) (st : σ) (timer : Nat → τ) (console : Text) :
    returned (run data copy out sorter (2 ^ 64 - 1) algoname reset_out st timer console)
      = false ∧
    (run_end data copy out sorter (2 ^ 64 - 1) algoname reset_out st timer console).trace.map
      Event.kind = [EventKind.sorter_call, EventKind.bar_inc] ∧
    (progress_bar.new ((2 ^ 64 - 1 + 1) % U64) algoname (std_cout console) 70).max = 0 := by
  obtain ⟨h1, h2⟩ :=
    run_stops data copy out sorter (2 ^ 64 - 1) algoname reset_out st timer console
      (by decide)
  refine ⟨h1, ?_, by simp [progress_bar.new, U64]⟩
  unfold run_end
  rw [h2]
  rfl

/-! ## The verdict of `benchmark` (C1) -/

theorem std_sort_sorted {n : Nat} (d : Buf Int n) :
    (std_sort d).toList.Sorted (fun a b => a ≤ b) :=
  List.sorted_insertionSort (fun a b : Int => a ≤ b) d.toList

theorem std_sort_perm {n : Nat} (d : Buf Int n) : (std_sort d).toList.Perm d.toList :=
  List.perm_insertionSort (fun a b : Int => a ≤ b) d.toList

theorem run_end_last_measured {σ τ : Type} [Zero τ] [Add τ] {n : Nat}
    (data copy out : Buf Int n) (sorter : Sorter σ n) (iterations : Nat) (algoname : Text)
    (reset_out : Bool) (st : σ) (timer : Nat → τ) (console : Text) :
    ∀ c, (measured_calls
        (run_end data copy out sorter iterations algoname reset_out st timer console).trace
        ).getLast? = some c →
      c.out_after = (run_end data copy out sorter iterations algoname reset_out st timer
        console).out := by
  apply run_end_preserves data copy out sorter iterations algoname reset_out st timer console
    (fun s => ∀ c, (measured_calls s.trace).getLast? = some c → c.out_after = s.out)
  · intro s e b he h
    simpa [(measured_calls_bar s.trace e he).1] using h
  · intro it s _ c hc
    rw [measured_calls_work, List.getLast?_append] at hc
    simp only [List.getLast?_singleton] at hc
    have hc2 := Option.some.inj hc
    subst hc2
    rfl
  · simp [call_sorter, run_init, measured_calls, calls]

theorem run_end_stdsort_data {τ : Type} [Zero τ] [Add τ] {n : Nat}
    (data copy out : Buf Int n) (iterations : Nat) (algoname : Text)
    (reset_out : Bool) (timer : Nat → τ) (console : Text) :
    measured_calls
        (run_end data copy out stdsort_lambda iterations algoname reset_out () timer console).trace
        ≠ [] →
      (run_end data copy out stdsort_lambda iterations algoname reset_out () timer console).data
        = std_sort
          (run_end data copy out stdsort_lambda iterations algoname reset_out () timer
            console).copy := by
  apply run_end_preserves data copy out stdsort_lambda iterations algoname reset_out () timer
    console (fun s => measured_calls s.trace ≠ [] → s.data = std_sort s.copy)
  · intro s e b he h
    simpa [(measured_calls_bar s.trace e he).1] using h
  · intro it s _ _
    cases reset_out
    · rw [loop_work_false]
      rfl
    · rw [loop_work_true]
      rfl
  · simp [call_sorter, run_init, measured_calls, calls]

/-- C1: for an iteration count `N` with `1 ≤ N` (a `size_t`), `benchmark` reports `correct=1`
exactly when the execution of the candidate has a last measured iteration, run on the pristine
input with a zeroed output buffer, whose output buffer equals, position by position, the
ascending sort of the pristine input, that is `std::sort` of it: the arrangement of the input
in non-decreasing order. -/
theorem benchmark_correct_iff {σ τ : Type} [Zero τ] [Add τ] [Div τ] [NatCast τ] {size : Nat}
    (iterations : Nat) (h1 : 1 ≤ iterations) (h2 : iterations < U64)
    (generator : Buf Int size → Buf Int size) (name : String)
    (stat_stream : Option (List (ResultRecord τ))) (env : BenchEnv σ τ size) :
    ((∃ r, benchmark size iterations generator name stat_stream env = some r ∧
        r.cout_records.map (fun x => (x.algo, x.correct))
          = [("ssssort", true), ("stdsort", true)]) ↔
      ∃ c, (measured_calls (final_state (ssssort_run iterations generator env)).trace).getLast?
          = some c ∧
        (∀ i : Fin size, c.data_in.get i = (generator env.data0).get i) ∧
        (∀ i : Fin size, c.out_in.get i = 0) ∧
        ∀ i : Fin size, c.out_after.get i = (std_sort (generator env.data0)).get i) ∧
    (std_sort (generator env.data0)).toList.Sorted (fun a b => a ≤ b) ∧
    (std_sort (generator env.data0)).toList.Perm (generator env.data0).toList := by
  refine ⟨?_, std_sort_sorted _, std_sort_perm _⟩
  by_cases hN : iterations + 1 < U64
  · -- both calls of `run` return
    obtain ⟨s1, hs1, _, _, _, hm1⟩ :=
      run_returns (generator env.data0) (generator env.data0) env.out0 env.ssssort iterations
        "ssssort: ".toList true env.ssssort_state env.timer_ssssort env.console hN (by decide)
    obtain ⟨s2, hs2, _, _, _, hm2⟩ :=
      run_returns s1.data s1.copy s1.out stdsort_lambda iterations
        "std::sort: ".toList false () env.timer_stdsort s1.bar.out.written hN (by decide)
    have hrun1 : ssssort_run iterations generator env = Except.ok s1 := hs1
    have hrun2 : stdsort_run iterations env s1 = Except.ok s2 := hs2
    have A1 := run_end_pristine (generator env.data0) (generator env.data0) env.out0 env.ssssort
      iterations "ssssort: ".toList true env.ssssort_state env.timer_ssssort env.console
    have L1 := run_end_last_measured (generator env.data0) (generator env.data0) env.out0
      env.ssssort iterations "ssssort: ".toList true env.ssssort_state env.timer_ssssort
      env.console
    have A2 := run_end_pristine s1.data s1.copy s1.out stdsort_lambda iterations
      "std::sort: ".toList false () env.timer_stdsort s1.bar.out.written
    have B2 := run_end_keeps_out s1.data s1.copy s1.out stdsort_lambda iterations
      "std::sort: ".toList () env.timer_stdsort s1.bar.out.written (fun _ _ _ => rfl)
    have D2 := run_end_stdsort_data s1.data s1.copy s1.out iterations
      "std::sort: ".toList false env.timer_stdsort s1.bar.out.written
    rw [run_end_of_ok hs1] at A1 L1
    rw [run_end_of_ok hs2] at A2 B2 D2
    have hne2 : measured_calls s2.trace ≠ [] := by
      intro h
      rw [h] at hm2
      simp at hm2
      omega
    have hdata2 : s2.data = std_sort (generator env.data0) := by
      rw [D2 hne2, A2.1, A1.1]
    have hout2 : s2.out = s1.out := B2.1
    have hne1 : measured_calls s1.trace ≠ [] := by
      intro h
      rw [h] at hm1
      simp at hm1
      omega
    obtain ⟨c, hc⟩ : ∃ c, (measured_calls s1.trace).getLast? = some c :=
      ⟨_, List.getLast?_eq_getLast _ hne1⟩
    have hcmem : c ∈ measured_calls s1.trace := List.mem_of_getLast?_eq_some hc
    obtain ⟨hcin, hczero⟩ := A1.2 c hcmem
    have hcout : c.out_after = s1.out := L1 c hc
    have hbench : benchmark size iterations generator name stat_stream env = some
        { cout_records :=
            [ { algo := "ssssort", name := name, size := size, iterations := iterations
                time := s1.time / (iterations : τ), t_generate := env.t_generate
                t_verify := env.t_verify, correct := !verify_incorrect s2.out s2.data },
              { algo := "stdsort", name := name, size := size, iterations := iterations
                time := s2.time / (iterations : τ), t_generate := env.t_generate
                t_verify := 0, correct := true } ]
          stat_records := stat_stream.map (fun old => old ++
            [ { algo := "ssssort", name := name, size := size, iterations := iterations
                time := s1.time / (iterations : τ), t_generate := env.t_generate
                t_verify := env.t_verify, correct := !verify_incorrect s2.out s2.data },
              { algo := "stdsort", name := name, size := size, iterations := iterations
                time := s2.time / (iterations : τ), t_generate := env.t_generate
                t_verify := 0, correct := true } ])
          cerr_not_sorted := !is_sorted s2.out.toList
          console := s2.bar.out.written } := by
      simp only [benchmark, hrun1, hrun2]
    have hl : (∃ r, benchmark size iterations generator name stat_stream env = some r ∧
        r.cout_records.map (fun x => (x.algo, x.correct))
          = [("ssssort", true), ("stdsort", true)]) ↔
        verify_incorrect s1.out (std_sort (generator env.data0)) = false := by
      rw [hbench, hdata2, hout2]
      constructor
      · rintro ⟨r, hr, hrec⟩
        cases hr
        simpa using hrec
      · intro hv
        exact ⟨_, rfl, by simp [hv]⟩
    rw [hl, verify_incorrect_eq_false_iff, hrun1]
    simp only [final_state]
    constructor
    · rintro ⟨_, heq⟩
      exact ⟨c, hc, fun i => by rw [hcin], fun i => by
        rw [hczero rfl]
        exact Mathlib.Vector.get_replicate 0 i, fun i => by rw [hcout]; exact heq i⟩
    · rintro ⟨c1, hc1, _, _, heq⟩
      have hcc : c1 = c := Option.some.inj (hc1.symm.trans hc)
      subst hcc
      have hout : s1.out = std_sort (generator env.data0) :=
        Mathlib.Vector.ext (fun i => by rw [← hcout]; exact heq i)
      refine ⟨?_, fun i => by rw [hout]⟩
      rw [hout]
      exact (sorted_toList_iff _).mp (std_sort_sorted _)
  · -- the iteration count is `2^64 - 1`: the candidate run stops after the warm-up
    have hN2 : iterations + 1 = U64 := by omega
    obtain ⟨hret, htrace⟩ :=
      run_stops (generator env.data0) (generator env.data0) env.out0 env.ssssort iterations
        "ssssort: ".toList true env.ssssort_state env.timer_ssssort env.console hN2
    have hrun1 : ssssort_run iterations generator env =
        run (generator env.data0) (generator env.data0) env.out0 env.ssssort iterations
        "ssssort: ".toList true env.ssssort_state env.timer_ssssort env.console := rfl
    constructor
    · rintro ⟨r, hr, _⟩
      simp only [benchmark, hrun1] at hr
      revert hret hr
      cases run (generator env.data0) (generator env.data0) env.out0 env.ssssort iterations
        "ssssort: ".toList true env.ssssort_state env.timer_ssssort env.console with
      | error e => simp
      | ok s => simp [returned]
    · rintro ⟨c, hc, _⟩
      rw [hrun1, htrace] at hc
      simp [measured_calls, calls] at hc

/-- Witness of C1: size 8, the input 8,7,6,5,4,3,2,1 of "reverse", one iteration, a candidate
whose output is 1,...,8: `benchmark` reports `correct=1`. -/
theorem benchmark_correct_iff_witness :
    (1 ≤ 1 ∧ 1 < U64) ∧
    (reverse_gen sample_env.data0).toList = [8, 7, 6, 5, 4, 3, 2, 1] ∧
    ∃ r, benchmark 8 1 reverse_gen "reverse" none sample_env = some r ∧
      r.cout_records.map (fun x => (x.algo, x.correct))
        = [("ssssort", true), ("stdsort", true)] :=
  ⟨by decide, by decide,
    (benchmark_correct_iff 1 (by decide) (by decide) reverse_gen "reverse" none sample_env).1.mpr
      ⟨{ it := some 0
         data_in := ⟨[8, 7, 6, 5, 4, 3, 2, 1], rfl⟩
         out_in := zeroed 8
         data_after := ⟨[8, 7, 6, 5, 4, 3, 2, 1], rfl⟩
         out_after := ⟨[1, 2, 3, 4, 5, 6, 7, 8], rfl⟩ },
        by decide, by decide, by decide, by decide⟩⟩

/-! ## Renders of the progress bar -/

theorem render_text_ne_nil (extra : Text) (barwidth progress : Int) :
    progress_bar.render_text extra barwidth progress ≠ [] := by
  simp [progress_bar.render_text]

theorem draw_case3 (b : progress_bar) (c1 : b.do_draw = true) (c2 : ¬ b.max = 0)
    (c3 : ¬ b.percent = b.lastprogress) (c4 : in_int_range (b.barwidth * b.percent) = true) :
    b.draw = some { b with
        out := b.out.write (progress_bar.render_text b.extra b.barwidth b.percent)
        lastprogress := b.percent } := by
  have hne : ¬ to_int ((((b.pos * 100) % U64) / b.max : Nat) : Int) = b.lastprogress := c3
  have c4b : in_int_range
      (b.barwidth * to_int ((((b.pos * 100) % U64) / b.max : Nat) : Int)) = true := c4
  unfold progress_bar.draw
  rw [if_neg (by simp [c1]), if_neg c2]
  dsimp only
  rw [if_neg hne]
  rw [c4b, if_neg (by decide)]
  congr 1
  show progress_bar.mk _ _ _ _ _ _ _ = progress_bar.mk _ _ _ _ _ _ _
  congr 1
  show OStream.mk _ _ = OStream.mk _ _
  congr 1
  show ((b.out.written ++ (b.extra ++ ['['])) ++ _) ++ _ = b.out.written ++ ((_ ++ _ ++ _ ++ _) ++ _)
  simp only [List.append_assoc]
  rfl

theorem draw_cases (b : progress_bar) :
    b.draw = none ∨ b.draw = some b ∨
    (b.draw = some { b with
        out := b.out.write (progress_bar.render_text b.extra b.barwidth b.percent)
        lastprogress := b.percent } ∧
      b.percent ≠ b.lastprogress ∧ b.do_draw = true ∧ b.max ≠ 0 ∧
      in_int_range (b.barwidth * b.percent) = true) := by
  by_cases c1 : b.do_draw = true
  · by_cases c2 : b.max = 0
    · left
      unfold progress_bar.draw
      rw [if_neg (by simp [c1]), if_pos c2]
    · by_cases c3 : b.percent = b.lastprogress
      · right; left
        have : to_int ((((b.pos * 100) % U64) / b.max : Nat) : Int) = b.lastprogress := c3
        unfold progress_bar.draw
        rw [if_neg (by simp [c1]), if_neg c2]
        exact if_pos this
      · by_cases c4 : in_int_range (b.barwidth * b.percent) = true
        · exact Or.inr (Or.inr ⟨draw_case3 b c1 c2 c3 c4, c3, c1, c2, c4⟩)
        · left
          have hne : ¬ to_int ((((b.pos * 100) % U64) / b.max : Nat) : Int) = b.lastprogress :=
            c3
          have c4b : in_int_range
              (b.barwidth * to_int ((((b.pos * 100) % U64) / b.max : Nat) : Int)) = false := by
            simpa using c4
          unfold progress_bar.draw
          rw [if_neg (by simp [c1]), if_neg c2]
          dsimp only
          rw [if_neg hne, c4b, if_pos (by decide)]
  · right; left
    unfold progress_bar.draw
    exact if_pos (by simp [c1])

theorem draw_rendered_some (b : progress_bar) (p : Int) (h : b.draw_rendered = some p) :
    p = b.percent ∧ p ≠ b.lastprogress ∧
    b.draw = some { b with
      out := b.out.write (progress_bar.render_text b.extra b.barwidth p)
      lastprogress := p } ∧
    b.do_draw = true ∧ b.max ≠ 0 ∧ in_int_range (b.barwidth * p) = true := by
  unfold progress_bar.draw_rendered at h
  rcases draw_cases b with h1 | h1 | ⟨h1, h2, h3, h4, h5⟩
  · simp [h1] at h
  · simp [h1] at h
  · rw [h1] at h
    have hw : ¬ (b.out.written ++ progress_bar.render_text b.extra b.barwidth b.percent
        = b.out.written) := by
      rw [List.append_right_eq_self]
      exact render_text_ne_nil _ _ _
    have h6 : some b.percent = some p := by
      rw [← h]
      exact (if_neg hw).symm
    have h7 := Option.some.inj h6
    subst h7
    exact ⟨rfl, h2, h1, h3, h4, h5⟩

theorem draw_rendered_none (b b1 : progress_bar) (h : b.draw_rendered = none)
    (hd : b.draw = some b1) : b1 = b := by
  unfold progress_bar.draw_rendered at h
  rcases draw_cases b with h1 | h1 | ⟨h1, _⟩
  · rw [h1] at hd
    cases hd
  · rw [h1] at hd
    exact (Option.some.inj hd).symm
  · rw [h1] at h
    have hw : ¬ (b.out.written ++ progress_bar.render_text b.extra b.barwidth b.percent
        = b.out.written) := by
      rw [List.append_right_eq_self]
      exact render_text_ne_nil _ _ _
    have h6 : some b.percent = none := by
      rw [← h]
      exact (if_neg hw).symm
    cases h6

theorem draw_rendered_of_draw_none (b : progress_bar) (h : b.draw = none) :
    b.draw_rendered = none := by
  simp [progress_bar.draw_rendered, h]

/-- After a call of `draw()` the last-rendered percentage is the percentage that the call
rendered, which differs from the one before, or it is unchanged when the call rendered
nothing. -/
theorem draw_lastprogress (b b1 : progress_bar) (hd : b.draw = some b1) :
    (∃ p, b.draw_rendered = some p ∧ b1.lastprogress = p ∧ p ≠ b.lastprogress) ∨
    (b.draw_rendered = none ∧ b1.lastprogress = b.lastprogress) := by
  cases hr : b.draw_rendered with
  | none =>
    right
    rw [draw_rendered_none b b1 hr hd]
    exact ⟨rfl, rfl⟩
  | some p =>
    left
    obtain ⟨_, h2, h3, _⟩ := draw_rendered_some b p hr
    rw [h3] at hd
    cases hd
    exact ⟨p, rfl, rfl, h2⟩

theorem undraw_fields (b b1 : progress_bar) (h : b.undraw = some b1) :
    b1 = { b with out := b.out.write (progress_bar.undraw_text b.extra b.barwidth) } := by
  unfold progress_bar.undraw at h
  dsimp only at h
  split_ifs at h
  exact (Option.some.inj h).symm

theorem apply_lastprogress (b b1 : progress_bar) (op : BarOp) (h : op.apply b = some b1) :
    (∃ p, op.rendered b = some p ∧ b1.lastprogress = p ∧ p ≠ b.lastprogress) ∨
    (op.rendered b = none ∧ b1.lastprogress = b.lastprogress) := by
  cases op with
  | step => exact draw_lastprogress _ b1 h
  | stepto q => exact draw_lastprogress _ b1 h
  | operator_inc => exact draw_lastprogress _ b1 h
  | undraw =>
    right
    have := undraw_fields b b1 h
    rw [this]
    exact ⟨rfl, rfl⟩
  | set_extra t =>
    simp only [BarOp.apply, progress_bar.set_extra] at h
    simp only [BarOp.rendered]
    cases hu : b.undraw with
    | none => simp [hu] at h
    | some b2 =>
      simp only [hu] at h
      have hb2 := undraw_fields b b2 hu
      have := draw_lastprogress _ b1 h
      rw [hb2] at this
      rw [hb2]
      exact this

theorem rendered_of_apply_none (b : progress_bar) (op : BarOp) (h : op.apply b = none) :
    op.rendered b = none := by
  cases op with
  | step => exact draw_rendered_of_draw_none _ h
  | stepto q => exact draw_rendered_of_draw_none _ h
  | operator_inc => exact draw_rendered_of_draw_none _ h
  | undraw => rfl
  | set_extra t =>
    simp only [BarOp.apply, progress_bar.set_extra] at h
    simp only [BarOp.rendered]
    cases hu : b.undraw with
    | none => rfl
    | some b2 =>
      simp only [hu] at h
      exact draw_rendered_of_draw_none _ h

theorem render_log_chain (b : progress_bar) (ops : List BarOp) :
    List.Chain (fun p q => p ≠ q) b.lastprogress (BarOp.render_log b ops) := by
  induction ops generalizing b with
  | nil => exact List.Chain.nil
  | cons op rest ih =>
    unfold BarOp.render_log
    cases ha : op.apply b with
    | none =>
      rw [rendered_of_apply_none b op ha]
      exact List.Chain.nil
    | some b1 =>
      rcases apply_lastprogress b b1 op ha with ⟨p, hp, hl, hne⟩ | ⟨hp, hl⟩
      · rw [hp]
        simp only [Option.toList, List.singleton_append]
        refine List.Chain.cons (fun h => hne h.symm) ?_
        rw [← hl]
        exact ih b1
      · rw [hp]
        simp only [Option.toList, List.nil_append]
        rw [← hl]
        exact ih b1

/-- What a call of `draw()` appends to the destination: the text of the render it makes, or
nothing. -/
theorem draw_written (b b1 : progress_bar) (h : b.draw = some b1) :
    b1.out.written = b.out.written ++
      (match b.draw_rendered with
       | some p => progress_bar.render_text b.extra b.barwidth p
       | none => []) ∧
    b1.extra = b.extra ∧ b1.barwidth = b.barwidth := by
  cases hr : b.draw_rendered with
  | none =>
    rw [draw_rendered_none b b1 hr h]
    exact ⟨(List.append_nil _).symm, rfl, rfl⟩
  | some p =>
    obtain ⟨_, _, h3, _⟩ := draw_rendered_some b p hr
    rw [h3] at h
    cases h
    exact ⟨rfl, rfl, rfl⟩

/-- What an operation appends to the destination: the undraw sequence when the operation is
`undraw` or `set_extra`, then the text of the render that the operation makes, if any. -/
theorem apply_written (b b1 : progress_bar) (op : BarOp) (h : op.apply b = some b1) :
    b1.out.written = b.out.written ++
      (if op.calls_undraw then progress_bar.undraw_text b.extra b.barwidth else []) ++
      (match op.rendered b with
       | some p => progress_bar.render_text b1.extra b1.barwidth p
       | none => []) := by
  cases op with
  | step =>
    obtain ⟨h1, h2, h3⟩ := draw_written _ b1 h
    rw [h2, h3]
    simpa [BarOp.calls_undraw, BarOp.rendered] using h1
  | stepto q =>
    obtain ⟨h1, h2, h3⟩ := draw_written _ b1 h
    rw [h2, h3]
    simpa [BarOp.calls_undraw, BarOp.rendered] using h1
  | operator_inc =>
    obtain ⟨h1, h2, h3⟩ := draw_written _ b1 h
    rw [h2, h3]
    simpa [BarOp.calls_undraw, BarOp.rendered] using h1
  | undraw =>
    rw [undraw_fields b b1 h]
    simp [BarOp.rendered, BarOp.calls_undraw, OStream.write]
  | set_extra t =>
    simp only [BarOp.apply, progress_bar.set_extra] at h
    cases hu : b.undraw with
    | none => simp [hu] at h
    | some b2 =>
      simp only [hu] at h
      obtain ⟨h1, h2, h3⟩ := draw_written _ b1 h
      simp only [BarOp.rendered, hu]
      rw [h2, h3, h1, undraw_fields b b2 hu]
      simp [BarOp.calls_undraw, OStream.write]

/-! ## Redraw suppression (C11) -/

theorem percent_eq_floor (s : progress_bar) (h1 : s.pos * 100 < U64)
    (h2 : s.pos * 100 / s.max < 2 ^ 31) :
    s.percent = ((s.pos * 100 / s.max : Nat) : Int) := by
  unfold progress_bar.percent
  rw [Nat.mod_eq_of_lt h1]
  generalize s.pos * 100 / s.max = q at h2
  unfold to_int
  omega

theorem draw_of_percent_eq (s : progress_bar) (h0 : s.max ≠ 0)
    (h : s.percent = s.lastprogress) : s.draw = some s := by
  rcases draw_cases s with h1 | h1 | ⟨_, h2, _⟩
  · exfalso
    by_cases c1 : s.do_draw = true
    · have : to_int ((((s.pos * 100) % U64) / s.max : Nat) : Int) = s.lastprogress := h
      unfold progress_bar.draw at h1
      rw [if_neg (by simp [c1]), if_neg h0] at h1
      dsimp only at h1
      rw [if_pos this] at h1
      cases h1
    · unfold progress_bar.draw at h1
      rw [if_pos (by simp [c1])] at h1
      cases h1
  · exact h1
  · exact absurd h h2

/-- C11: the percentages of the renders written while any sequence of operations is applied
to a progress bar are pairwise different from one render to the next, and the first differs
from the percentage last rendered before. A call of `draw()` renders only the percentage it
computes and only when that differs from the last-rendered percentage, which it then
becomes; with the computed percentage equal to the last-rendered one nothing is rendered. The
computed percentage is `floor(100*pos/max)` as long as `pos*100` fits `unsigned long long`
and the quotient fits `int`. -/
theorem consecutive_renders_differ (b : progress_bar) (ops : List BarOp) :
    List.Chain' (fun p q => p ≠ q) (BarOp.render_log b ops) ∧
    (∀ p ∈ (BarOp.render_log b ops).head?, p ≠ b.lastprogress) ∧
    (∀ (s : progress_bar) (p : Int), s.draw_rendered = some p →
      p = s.percent ∧ p ≠ s.lastprogress ∧
      s.draw = some { s with
        out := s.out.write (progress_bar.render_text s.extra s.barwidth p)
        lastprogress := p }) ∧
    (∀ s : progress_bar, s.max ≠ 0 → s.percent = s.lastprogress → s.draw = some s) ∧
    (∀ s : progress_bar, s.pos * 100 < U64 → s.pos * 100 / s.max < 2 ^ 31 →
      s.percent = ((s.pos * 100 / s.max : Nat) : Int)) := by
  have hc := render_log_chain b ops
  refine ⟨?_, ?_, ?_, draw_of_percent_eq, percent_eq_floor⟩
  · cases hl : BarOp.render_log b ops with
    | nil => exact List.chain'_nil
    | cons a t =>
      rw [hl] at hc
      exact (List.chain_cons.mp hc).2
  · intro p hp
    cases hl : BarOp.render_log b ops with
    | nil => simp [hl] at hp
    | cons a t =>
      rw [hl] at hc hp
      simp only [List.head?_cons, Option.mem_def, Option.some.injEq] at hp
      subst hp
      exact fun h => (List.chain_cons.mp hc).1 h.symm
  · intro s p h
    obtain ⟨h1, h2, h3, _⟩ := draw_rendered_some s p h
    exact ⟨h1, h2, h3⟩

set_option maxRecDepth 20000 in
/-- Witness of C11: on a bar of maximum 10, two steps, an undraw, a new label, a move to 5
twice and a move to 1 are rendered as 10, 20, 50 and 10 percent. -/
theorem consecutive_renders_differ_witness :
    BarOp.render_log sample_bar [BarOp.step, BarOp.step, BarOp.undraw, BarOp.set_extra ['b'],
      BarOp.stepto 5, BarOp.stepto 5, BarOp.stepto 1] = [10, 20, 50, 10] ∧
    List.Chain' (fun p q => p ≠ q) (BarOp.render_log sample_bar [BarOp.step, BarOp.step,
      BarOp.undraw, BarOp.set_extra ['b'], BarOp.stepto 5, BarOp.stepto 5, BarOp.stepto 1]) ∧
    ((sample_bar.pos * 100 < U64 ∧ sample_bar.pos * 100 / sample_bar.max < 2 ^ 31) ∧
      sample_bar.percent = ((sample_bar.pos * 100 / sample_bar.max : Nat) : Int)) :=
  ⟨by decide,
    (consecutive_renders_differ sample_bar [BarOp.step, BarOp.step, BarOp.undraw,
      BarOp.set_extra ['b'], BarOp.stepto 5, BarOp.stepto 5, BarOp.stepto 1]).1,
    by decide,
    (consecutive_renders_differ sample_bar []).2.2.2.2 sample_bar (by decide) (by decide)⟩

/-! ## The new label (C13) -/

set_option maxRecDepth 20000 in
/-- C13 (evaluation of the code): on a bar of maximum 10 that a step has rendered at 10
percent, `set_extra` with a new label writes the undraw sequence of the old label and nothing
more: the percentage is the last-rendered one, so its call of `draw()` renders nothing and the
bar stays erased. -/
theorem set_extra_leaves_bar_erased :
    (BarOp.apply_all sample_bar [BarOp.step]).map (fun b => (b.percent, b.lastprogress))
      = some (10, 10) ∧
    BarOp.render_log sample_bar [BarOp.step, BarOp.set_extra ['b']] = [10] ∧
    (BarOp.apply_all sample_bar [BarOp.step, BarOp.set_extra ['b']]).map
        (fun b => (b.extra, b.out.written))
      = (BarOp.apply_all sample_bar [BarOp.step]).map
        (fun b => (['b'], b.out.written ++ progress_bar.undraw_text ['a'] 70)) := by
  decide

/-! ## What `undraw` writes (C12) -/

/-- C12 (counterexample): with the bar width `2^31 - 1` the sum `barwidth + 8` overflows
`int`, so `undraw` does not write the blanks of the claim; with a label of `2^31` characters
and the width 70 the conversion of the length to `int` gives `-2^31`, the width is negative
and `undraw` writes the two carriage returns with no blank between them. -/
theorem undraw_width_overflows :
    (progress_bar.new 10 [] (std_cout []) 2147483647).undraw = none ∧
    ((progress_bar.new 10 (List.replicate (2 ^ 31) 'x') (std_cout []) 70).undraw).map
      (fun b => b.out.written) = some [CR, CR] := by
  refine ⟨by decide, ?_⟩
  have hl : to_int (((List.replicate (2 ^ 31) 'x').length : Nat) : Int) = -2147483648 := by
    rw [List.length_replicate]
    decide
  unfold progress_bar.undraw
  dsimp only [progress_bar.new]
  rw [hl]
  rfl

/-- C12 (amended): for a bar width `barwidth ≥ 0` and a label with
`barwidth + 8 + label.length() < 2^31`, in every state, `undraw` appends to the destination
one carriage return, `barwidth + 8 + label.length()` blanks and one carriage return, and
changes no other field of the indicator. -/
theorem undraw_writes_blanks (b : progress_bar) (hw : 0 ≤ b.barwidth)
    (hlen : b.barwidth + 8 + (b.extra.length : Int) < 2 ^ 31) :
    b.undraw = some { b with
      out := b.out.write
        (CR :: List.replicate (b.barwidth.toNat + 8 + b.extra.length) ' ' ++ [CR]) } := by
  have hl : to_int (b.extra.length : Int) = (b.extra.length : Int) := by
    unfold to_int
    omega
  have r1 : in_int_range (b.barwidth + 8) = true := by
    unfold in_int_range
    simp only [Bool.and_eq_true, decide_eq_true_eq]
    omega
  have r2 : in_int_range (b.barwidth + 8 + to_int (b.extra.length : Int)) = true := by
    rw [hl]
    unfold in_int_range
    simp only [Bool.and_eq_true, decide_eq_true_eq]
    omega
  have hn : (b.barwidth + 8 + (b.extra.length : Int)).toNat
      = b.barwidth.toNat + 8 + b.extra.length := by
    omega
  unfold progress_bar.undraw
  dsimp only
  rw [r1, r2, hl, hn]
  rfl

/-- Witness of C12: the bar of the examples, of width 70 and with a label of one character,
is undrawn with 79 blanks. -/
theorem undraw_writes_blanks_witness :
    (0 ≤ sample_bar.barwidth ∧
      sample_bar.barwidth + 8 + (sample_bar.extra.length : Int) < 2 ^ 31) ∧
    sample_bar.undraw = some { sample_bar with
      out := sample_bar.out.write (CR :: List.replicate 79 ' ' ++ [CR]) } :=
  ⟨by decide, undraw_writes_blanks sample_bar (by decide) (by decide)⟩

/-! ## The characters of a render (C14, C16, C17) -/

theorem bar_text_length (barwidth fill : Int) :
    (progress_bar.bar_text barwidth fill).length = barwidth.toNat := by
  unfold progress_bar.bar_text
  rw [List.length_map, List.length_range]

theorem glyph_cases (fill : Int) (i : Nat) :
    progress_bar.glyph fill i = '=' ∨ progress_bar.glyph fill i = '>' ∨
      progress_bar.glyph fill i = ' ' := by
  unfold progress_bar.glyph
  split_ifs
  · exact Or.inl rfl
  · exact Or.inr (Or.inl rfl)
  · exact Or.inr (Or.inr rfl)

theorem bar_text_glyphs (barwidth fill : Int) :
    ∀ c ∈ progress_bar.bar_text barwidth fill, c = '=' ∨ c = '>' ∨ c = ' ' := by
  intro c hc
  unfold progress_bar.bar_text at hc
  obtain ⟨i, _, hi⟩ := List.mem_map.mp hc
  rw [← hi]
  exact glyph_cases fill i

theorem digitChar_ne_LF (k : Nat) (hk : k < 10) : Nat.digitChar k ≠ LF := by
  interval_cases k <;> decide

theorem toDigitsCore_ne_LF (fuel n : Nat) (ds : List Char) (h : ∀ c ∈ ds, c ≠ LF) :
    ∀ c ∈ Nat.toDigitsCore 10 fuel n ds, c ≠ LF := by
  induction fuel generalizing n ds with
  | zero => exact h
  | succ f ih =>
    have hcons : ∀ c ∈ Nat.digitChar (n % 10) :: ds, c ≠ LF := by
      intro c hc
      rcases List.mem_cons.mp hc with hc | hc
      · rw [hc]
        exact digitChar_ne_LF _ (Nat.mod_lt _ (by decide))
      · exact h c hc
    unfold Nat.toDigitsCore
    dsimp only
    split_ifs
    · exact hcons
    · exact ih _ _ hcons

theorem int_text_ne_LF (p : Int) : ∀ c ∈ int_text p, c ≠ LF := by
  unfold int_text
  split_ifs
  · intro c hc
    rcases List.mem_cons.mp hc with hc | hc
    · rw [hc]
      decide
    · exact toDigitsCore_ne_LF _ _ [] (fun _ h => absurd h (List.not_mem_nil _)) c hc
  · exact toDigitsCore_ne_LF _ _ [] (fun _ h => absurd h (List.not_mem_nil _))

/-- C14 (counterexample): the first render of a bar of width 4 with an empty label on an
empty `std::cout` writes `[>   ] 10 %` and a carriage return: the first character written is
the bracket, not a carriage return, and a blank and ` %` stand around the percentage. -/
theorem render_has_no_leading_cr :
    (progress_bar.new 10 [] (std_cout []) 4).step.map (fun b => b.out.written)
      = some ['[', '>', ' ', ' ', ' ', ']', ' ', '1', '0', ' ', '%', CR] ∧
    ((progress_bar.new 10 [] (std_cout []) 4).step.map (fun b => b.out.written.head?))
      ≠ some (some CR) := by
  decide

/-- C14 (amended): every render appends to the destination, in this order and with nothing
else: the label, the bracket `[`, the bar, of `barwidth` characters (none for a negative
width) each of which is `=`, `>` or a blank, the bracket `]` and a blank, the percentage in
decimal, a blank and `%`, and a carriage return; nothing of what follows the label is a
newline, and the label is not preceded by a carriage return. -/
theorem render_format (b : progress_bar) (p : Int) (h : b.draw_rendered = some p) :
    b.draw = some { b with
      out := b.out.write
        (b.extra ++ ['['] ++ progress_bar.bar_text b.barwidth (Int.tdiv (b.barwidth * p) 100)
          ++ (']' :: ' ' :: int_text p ++ [' ', '%']) ++ [CR])
      lastprogress := p } ∧
    (progress_bar.bar_text b.barwidth (Int.tdiv (b.barwidth * p) 100)).length
      = b.barwidth.toNat ∧
    (∀ c ∈ progress_bar.bar_text b.barwidth (Int.tdiv (b.barwidth * p) 100),
      c = '=' ∨ c = '>' ∨ c = ' ') ∧
    (∀ c ∈ ['['] ++ progress_bar.bar_text b.barwidth (Int.tdiv (b.barwidth * p) 100)
          ++ (']' :: ' ' :: int_text p ++ [' ', '%']) ++ [CR], c ≠ LF) := by
  obtain ⟨_, _, h3, _⟩ := draw_rendered_some b p h
  refine ⟨h3, bar_text_length _ _, bar_text_glyphs _ _, ?_⟩
  intro c hc
  rcases List.mem_append.mp hc with hc | hc
  · rcases List.mem_append.mp hc with hc | hc
    · rcases List.mem_append.mp hc with hc | hc
      · rw [List.mem_singleton.mp hc]
        decide
      · rcases bar_text_glyphs _ _ c hc with h | h | h <;> rw [h] <;> decide
    · rcases List.mem_cons.mp hc with hc | hc
      · rw [hc]
        decide
      · rcases List.mem_cons.mp hc with hc | hc
        · rw [hc]
          decide
        · rcases List.mem_append.mp hc with hc | hc
          · exact int_text_ne_LF p c hc
          · rcases List.mem_cons.mp hc with hc | hc
            · rw [hc]
              decide
            · rw [List.mem_singleton.mp hc]
              decide
  · rw [List.mem_singleton.mp hc]
    decide

/-- Witness of C14: the first step of the bar of the examples renders 10 percent. -/
theorem render_format_witness :
    progress_bar.draw_rendered { sample_bar with pos := 1 } = some 10 ∧
    (progress_bar.bar_text 70 (Int.tdiv (70 * 10) 100)).length = 70 :=
  ⟨by decide, (render_format { sample_bar with pos := 1 } 10 (by decide)).2.1⟩

theorem toDigits_length_le (n : Nat) (h : n ≤ 100) : (Nat.toDigits 10 n).length ≤ 3 := by
  interval_cases n <;> decide

theorem percent_bounds (b : progress_bar) (hpos : b.pos ≤ b.max) :
    0 ≤ b.percent ∧ b.percent ≤ 100 := by
  have hq := percent_le b.pos b.max hpos
  unfold progress_bar.percent
  rw [to_int_of_le_100 _ hq]
  generalize b.pos * 100 % U64 / b.max = q at hq
  omega

theorem visible_text_length (extra : Text) (barwidth progress : Int) :
    (progress_bar.visible_text extra barwidth progress).length
      = extra.length + barwidth.toNat + 5 + (int_text progress).length := by
  unfold progress_bar.visible_text
  simp only [List.length_append, List.length_cons, List.length_nil, bar_text_length]
  omega

set_option maxRecDepth 20000 in
/-- C16 (counterexample): a bar of width `-3` with an empty label, maximum 10 and position 0
renders `[] 0 %`, six visible characters, while `barwidth + 8 + label.length()` is 5 and the
following `undraw` writes 5 blanks: the percent sign in the sixth column stays. -/
theorem render_wider_than_undraw :
    (0 < (progress_bar.new 10 [] (std_cout []) (-3)).max ∧
      (progress_bar.new 10 [] (std_cout []) (-3)).pos
        ≤ (progress_bar.new 10 [] (std_cout []) (-3)).max ∧
      (progress_bar.new 10 [] (std_cout []) (-3)).pos * 100 < 2 ^ 64) ∧
    (progress_bar.new 10 [] (std_cout []) (-3)).draw.map (fun b => b.out.written)
      = some ['[', ']', ' ', '0', ' ', '%', CR] ∧
    (progress_bar.visible_text [] (-3) 0).length = 6 ∧
    ((-3 : Int) + 8 + (([] : Text).length : Int) = 5) ∧
    ((progress_bar.new 10 [] (std_cout []) (-3)).draw.bind (fun b => b.undraw)).map
        (fun b => b.out.written)
      = some (['[', ']', ' ', '0', ' ', '%', CR] ++ (CR :: List.replicate 5 ' ' ++ [CR])) := by
  decide

/-- C16 (amended): in a state with `position ≤ maximum`, a bar width `barwidth ≥ 0` and
`barwidth + 8 + label.length() < 2^31`, the percentage that `draw()` computes is between 0 and
100 and has at most 3 digits; what a render writes is the visible text, of at most
`barwidth + 8 + label.length()` characters, and a carriage return; and the `undraw` that
follows writes exactly `barwidth + 8 + label.length()` blanks between two carriage returns,
at least as many as the visible characters. -/
theorem render_within_undraw_width (b : progress_bar) (hpos : b.pos ≤ b.max)
    (hw : 0 ≤ b.barwidth) (hlen : b.barwidth + 8 + (b.extra.length : Int) < 2 ^ 31) :
    (0 ≤ b.percent ∧ b.percent ≤ 100) ∧
    (int_text b.percent).length ≤ 3 ∧
    (progress_bar.visible_text b.extra b.barwidth b.percent).length
      ≤ b.barwidth.toNat + 8 + b.extra.length ∧
    (∀ p, b.draw_rendered = some p → p = b.percent ∧
      ∃ b1, b.draw = some b1 ∧
        b1.out.written = b.out.written ++
          (progress_bar.visible_text b.extra b.barwidth b.percent ++ [CR]) ∧
        b1.undraw = some { b1 with
          out := b1.out.write
            (CR :: List.replicate (b.barwidth.toNat + 8 + b.extra.length) ' ' ++ [CR]) }) := by
  have hb := percent_bounds b hpos
  have hd : (int_text b.percent).length ≤ 3 := by
    unfold int_text
    rw [if_neg (by omega)]
    exact toDigits_length_le _ (by omega)
  refine ⟨hb, hd, ?_, ?_⟩
  · rw [visible_text_length]
    omega
  · intro p hp
    obtain ⟨h1, _, h3, _⟩ := draw_rendered_some b p hp
    rw [h1] at h3
    have hu := undraw_writes_blanks
      { b with
        out := b.out.write (progress_bar.render_text b.extra b.barwidth b.percent)
        lastprogress := b.percent } hw hlen
    have hwr : (b.out.write (progress_bar.render_text b.extra b.barwidth b.percent)).written
        = b.out.written ++ (progress_bar.visible_text b.extra b.barwidth b.percent ++ [CR]) :=
      rfl
    exact ⟨h1, _, h3, hwr, hu⟩

set_option maxRecDepth 20000 in
/-- Witness of C16: the bar of the examples at position 1. -/
theorem render_within_undraw_width_witness :
    ((1 : Nat) ≤ 10 ∧ (0 : Int) ≤ 70 ∧ (70 : Int) + 8 + ((['a'] : Text).length : Int) < 2 ^ 31) ∧
    (progress_bar.visible_text ['a'] 70
      (progress_bar.percent { sample_bar with pos := 1 })).length ≤ 70 + 8 + 1 :=
  ⟨by decide,
    (render_within_undraw_width { sample_bar with pos := 1 } (by decide) (by decide)
      (by decide)).2.2.1⟩

theorem bar_text_nat (w f : Nat) :
    progress_bar.bar_text (w : Int) (f : Int) =
      List.replicate (min f w) '=' ++ (if f < w then ['>'] else []) ++
        List.replicate (w - f - 1) ' ' := by
  unfold progress_bar.bar_text
  rw [Int.toNat_ofNat]
  induction w with
  | zero => simp
  | succ w ih =>
    rw [List.range_succ, List.map_append, ih, List.map_singleton]
    rcases Nat.lt_trichotomy w f with h | h | h
    · have hg : progress_bar.glyph (f : Int) w = '=' := by
        unfold progress_bar.glyph
        rw [if_pos (by omega)]
      have c1 : (if f < w then ['>'] else ([] : List Char)) = [] := if_neg (by omega)
      have c2 : (if f < w + 1 then ['>'] else ([] : List Char)) = [] := if_neg (by omega)
      have e1 : min f w = w := by omega
      have e2 : min f (w + 1) = w + 1 := by omega
      have e3 : w - f - 1 = 0 := by omega
      have e4 : w + 1 - f - 1 = 0 := by omega
      rw [hg, c1, c2, e1, e2, e3, e4, List.replicate_succ']
      simp only [List.append_nil, List.replicate_zero]
    · subst h
      have hg : progress_bar.glyph (w : Int) w = '>' := by
        unfold progress_bar.glyph
        rw [if_neg (by omega), if_pos rfl]
      have c1 : (if w < w then ['>'] else ([] : List Char)) = [] := if_neg (by omega)
      have c2 : (if w < w + 1 then ['>'] else ([] : List Char)) = ['>'] := if_pos (by omega)
      have e1 : min w w = w := by omega
      have e2 : min w (w + 1) = w := by omega
      have e3 : w - w - 1 = 0 := by omega
      have e4 : w + 1 - w - 1 = 0 := by omega
      rw [hg, c1, c2, e1, e2, e3, e4]
      simp only [List.append_nil, List.replicate_zero]
    · have hg : progress_bar.glyph (f : Int) w = ' ' := by
        unfold progress_bar.glyph
        rw [if_neg (by omega), if_neg (by omega)]
      have c1 : (if f < w then ['>'] else ([] : List Char)) = ['>'] := if_pos h
      have c2 : (if f < w + 1 then ['>'] else ([] : List Char)) = ['>'] := if_pos (by omega)
      have e1 : min f w = f := by omega
      have e2 : min f (w + 1) = f := by omega
      have e4 : w + 1 - f - 1 = (w - f - 1) + 1 := by omega
      rw [hg, c1, c2, e1, e2, e4, List.replicate_succ']
      simp only [List.append_assoc]

/-- C17: a render at a percentage `p` with `0 ≤ p ≤ 100` of a bar of width `barwidth ≥ 1`
writes between `[` and `]` exactly `barwidth` characters: first `floor(barwidth*p/100)` times
`=`, then the cursor `>` exactly when `p < 100`, then blanks; at `p = 100` these are
`barwidth` times `=` and no cursor. -/
theorem bar_glyphs (b : progress_bar) (p : Int) (h : b.draw_rendered = some p)
    (hw : 1 ≤ b.barwidth) (hp0 : 0 ≤ p) (hp1 : p ≤ 100) :
    b.draw = some { b with
      out := b.out.write
        (b.extra ++ ['['] ++
          (List.replicate (b.barwidth * p / 100).toNat '=' ++
            (if p < 100 then ['>'] else []) ++
            List.replicate (b.barwidth.toNat - (b.barwidth * p / 100).toNat
              - (if p < 100 then 1 else 0)) ' ')
          ++ (']' :: ' ' :: int_text p ++ [' ', '%']) ++ [CR])
      lastprogress := p } ∧
    (List.replicate (b.barwidth * p / 100).toNat '=' ++
        (if p < 100 then ['>'] else []) ++
        List.replicate (b.barwidth.toNat - (b.barwidth * p / 100).toNat
          - (if p < 100 then 1 else 0)) ' ').length = b.barwidth.toNat ∧
    (p = 100 → (b.barwidth * p / 100).toNat = b.barwidth.toNat) ∧
    (p < 100 → (b.barwidth * p / 100).toNat < b.barwidth.toNat) := by
  obtain ⟨h3, _, _, _⟩ := render_format b p h
  obtain ⟨w, hwn⟩ : ∃ w : Nat, b.barwidth = (w : Int) := ⟨b.barwidth.toNat, by omega⟩
  obtain ⟨q, hq⟩ : ∃ q : Nat, p = (q : Int) := ⟨p.toNat, by omega⟩
  have hq100 : q ≤ 100 := by omega
  have hw1 : 1 ≤ w := by omega
  have hdiv : Int.tdiv (b.barwidth * p) 100 = ((w * q / 100 : Nat) : Int) := by
    rw [hwn, hq, Int.tdiv_eq_ediv (by positivity) (by decide)]
    norm_cast
  have hfloor : (b.barwidth * p / 100).toNat = w * q / 100 := by
    rw [hwn, hq]
    norm_cast
  have hwt : b.barwidth.toNat = w := by omega
  have hle : w * q / 100 ≤ w := by
    apply Nat.div_le_of_le_mul
    rw [Nat.mul_comm 100 w]
    exact Nat.mul_le_mul_left _ hq100
  have hlt : q < 100 → w * q / 100 < w := by
    intro hq2
    apply Nat.div_lt_of_lt_mul
    rw [Nat.mul_comm 100 w]
    exact Nat.mul_lt_mul_of_pos_left hq2 (by omega)
  have heq : q = 100 → w * q / 100 = w := by
    intro hq2
    rw [hq2]
    exact Nat.mul_div_cancel w (by decide)
  have hbar : progress_bar.bar_text b.barwidth (Int.tdiv (b.barwidth * p) 100) =
      List.replicate (b.barwidth * p / 100).toNat '=' ++
        (if p < 100 then ['>'] else []) ++
        List.replicate (b.barwidth.toNat - (b.barwidth * p / 100).toNat
          - (if p < 100 then 1 else 0)) ' ' := by
    rw [hdiv, hfloor, hwt]
    conv_lhs => rw [hwn]
    rw [bar_text_nat, Nat.min_eq_left hle]
    by_cases hq2 : q < 100
    · have hp2 : p < 100 := by omega
      rw [if_pos (hlt hq2), if_pos hp2, if_pos hp2]
    · have hq3 : q = 100 := by omega
      have hp2 : ¬ p < 100 := by omega
      rw [if_neg (by rw [heq hq3]; omega), if_neg hp2, if_neg hp2, heq hq3]
      simp
  refine ⟨?_, ?_, ?_, ?_⟩
  · rw [← hbar]
    exact h3
  · rw [← hbar]
    exact bar_text_length _ _
  · intro hp
    rw [hfloor, hwt]
    exact heq (by omega)
  · intro hp
    rw [hfloor, hwt]
    exact hlt (by omega)

/-- Witness of C17: the first step of the bar of the examples renders 10 percent, that is 7
fill glyphs, the cursor and 62 blanks. -/
theorem bar_glyphs_witness :
    (progress_bar.draw_rendered { sample_bar with pos := 1 } = some 10 ∧ (1 : Int) ≤ 70 ∧
      (0 : Int) ≤ 10 ∧ (10 : Int) ≤ 100) ∧
    ((10 : Int) < 100 → ((70 : Int) * 10 / 100).toNat < (70 : Int).toNat) :=
  ⟨by decide,
    (bar_glyphs { sample_bar with pos := 1 } 10 (by decide) (by decide) (by decide)
      (by decide)).2.2.2⟩

/-! ## The result records (C15) -/

theorem benchmark_returns {σ τ : Type} [Zero τ] [Add τ] [Div τ] [NatCast τ] (size iterations : Nat)
    (generator : Buf Int size → Buf Int size) (name : String)
    (stat_stream : Option (List (ResultRecord τ))) (env : BenchEnv σ τ size)
    (hN : iterations + 1 < U64) :
    ∃ r, benchmark size iterations generator name stat_stream env = some r := by
  obtain ⟨s1, hs1, _⟩ :=
    run_returns (generator env.data0) (generator env.data0) env.out0 env.ssssort iterations
      "ssssort: ".toList true env.ssssort_state env.timer_ssssort env.console hN (by decide)
  obtain ⟨s2, hs2, _⟩ :=
    run_returns s1.data s1.copy s1.out stdsort_lambda iterations
      "std::sort: ".toList false () env.timer_stdsort s1.bar.out.written hN (by decide)
  have hrun1 : ssssort_run iterations generator env = Except.ok s1 := hs1
  have hrun2 : stdsort_run iterations env s1 = Except.ok s2 := hs2
  unfold benchmark
  rw [hrun1]
  dsimp only
  rw [hrun2]
  exact ⟨_, rfl⟩

/-- C15 (counterexample): at size 8 with one iteration and a verification time of 1, the
record of the candidate carries `t_verify=1` and the record of the baseline `t_verify=0`. -/
theorem records_differ_in_t_verify :
    sample_env.t_verify = 1 ∧
    (benchmark 8 1 reverse_gen "reverse" none sample_env).map
      (fun r => r.cout_records.map (fun x => (x.algo, x.t_verify)))
      = some [("ssssort", 1), ("stdsort", 0)] := by
  decide

/-- C15 (amended): the two records that `benchmark` writes, the candidate's first, carry the
same case name, size, iteration count and `t_generate`, the generation time of the case; the
candidate's record carries the verification time of the case as `t_verify`, the baseline's
record carries the constants `t_verify=0` and `correct=1`. For an iteration count `N` with
`N + 1 < 2^64` the records are written. -/
theorem records_share_case {σ τ : Type} [Zero τ] [Add τ] [Div τ] [NatCast τ]
    (size iterations : Nat) (generator : Buf Int size → Buf Int size) (name : String)
    (stat_stream : Option (List (ResultRecord τ))) (env : BenchEnv σ τ size) :
    (∀ r, benchmark size iterations generator name stat_stream env = some r →
      ∃ c b, r.cout_records = [c, b] ∧ c.algo = "ssssort" ∧ b.algo = "stdsort" ∧
        c.name = name ∧ b.name = name ∧ c.size = size ∧ b.size = size ∧
        c.iterations = iterations ∧ b.iterations = iterations ∧
        c.t_generate = env.t_generate ∧ b.t_generate = env.t_generate ∧
        c.t_verify = env.t_verify ∧ b.t_verify = 0 ∧ b.correct = true) ∧
    (iterations + 1 < U64 →
      ∃ r, benchmark size iterations generator name stat_stream env = some r) := by
  refine ⟨?_, benchmark_returns size iterations generator name stat_stream env⟩
  intro r hr
  unfold benchmark at hr
  cases h1 : ssssort_run iterations generator env with
  | error e =>
    rw [h1] at hr
    cases hr
  | ok s1 =>
    rw [h1] at hr
    dsimp only at hr
    cases h2 : stdsort_run iterations env s1 with
    | error e =>
      rw [h2] at hr
      cases hr
    | ok s2 =>
      rw [h2] at hr
      dsimp only at hr
      cases hr
      exact ⟨_, _, rfl, rfl, rfl, rfl, rfl, rfl, rfl, rfl, rfl, rfl, rfl, rfl, rfl, rfl⟩

/-- Witness of C15: the records of the example at size 8. -/
theorem records_share_case_witness :
    (1 + 1 < U64) ∧
    ∃ r, benchmark 8 1 reverse_gen "reverse" none sample_env = some r :=
  ⟨by decide,
    (records_share_case 8 1 reverse_gen "reverse" none sample_env).2 (by decide)⟩

/-! ## The command line (C18, C19) -/

theorem strings_paths_equal (atol : String → Int) (argv : List String)
    (h : 3 < argv.length) :
    (strings_main_args atol argv).stat_file = (strings_main_args atol argv).input_file := by
  simp [strings_main_args, h]

/-- C18 (evaluation of the code): for the arguments `5 3 corpus.txt` the input corpus path
and the stats-file path are both `corpus.txt`, the fourth element of the argument vector, and
the stats stream is opened on the corpus file. -/
theorem strings_stats_file_is_corpus (atol : String → Int) :
    (strings_main_args atol ["strings", "5", "3", "corpus.txt"]).input_file = "corpus.txt" ∧
    (strings_main_args atol ["strings", "5", "3", "corpus.txt"]).stat_file = "corpus.txt" ∧
    strings_stat_stream (strings_main_args atol ["strings", "5", "3", "corpus.txt"])
      = some "corpus.txt" := by
  have hs : (strings_main_args atol ["strings", "5", "3", "corpus.txt"]).stat_file
      = "corpus.txt" := rfl
  refine ⟨rfl, hs, ?_⟩
  unfold strings_stat_stream
  rw [hs]
  exact if_neg (by decide)

/-- C19 (evaluation of the code): for the argument `-1`, for which `atoi` returns -1, the
iteration count is `2^64 - 1`; the progress bar that `run` creates for it has the maximum 0,
its first `++bar` divides by 0, and `run` does not return. -/
theorem bar_maximum_zero {σ τ : Type} [Zero τ] [Add τ] {n : Nat}
    (data copy out : Buf Int n) (sorter : Sorter σ n) (algoname : Text)
    (reset_out : Bool) (st : σ) (timer : Nat → τ) (console : Text) :
    sort_main_iterations (fun s => if s = "-1" then -1 else 0) ["sort", "-1"] = 2 ^ 64 - 1 ∧
    (run_init data copy out (2 ^ 64 - 1) algoname st console : RunState σ τ n).bar.max = 0 ∧
    (run_init data copy out (2 ^ 64 - 1) algoname st console : RunState σ τ n).bar.do_draw
      = true ∧
    (run_init data copy out (2 ^ 64 - 1) algoname st console
      : RunState σ τ n).bar.operator_inc = none ∧
    returned (run data copy out sorter (2 ^ 64 - 1) algoname reset_out st timer console)
      = false := by
  have hmax : (run_init data copy out (2 ^ 64 - 1) algoname st console
      : RunState σ τ n).bar.max = 0 := by
    simp [run_init, progress_bar.new, U64]
  have hdraw : (run_init data copy out (2 ^ 64 - 1) algoname st console
      : RunState σ τ n).bar.do_draw = true := by
    simp [run_init, progress_bar.new, std_cout]
  refine ⟨by decide, hmax, hdraw, operator_inc_none _ hdraw hmax, ?_⟩
  exact (run_stops data copy out sorter (2 ^ 64 - 1) algoname reset_out st timer console
    (by decide)).1

end Ssssort
